import Mathlib

/-!
A verification development for the file-permission-checker core.

The Python core (`src/core/security.py`, `src/core/integrity.py`,
`src/core/backup.py`, `src/core/pipeline.py`, `src/core/encryption_manager.py`)
is shallowly embedded below: pure functions become Lean functions, the
sqlite-backed rate-limit table becomes an explicit list of rows threaded
through each call, filesystem state becomes an explicit record, and Python
exceptions become `Except`/`Option` results.  External cryptographic
primitives (PBKDF2, SHA-256, Fernet) are modelled at their interface as
collision-free constructions, which is the idealization the spec's
properties assume.
-/

namespace Security

/-- Model of a SHA-256 digest: the digest is represented by its preimage,
making the ideal collision-freeness of the hash explicit by construction. -/
structure MDigest where
  pre : String
deriving DecidableEq, Repr

/-- `hashlib.sha256(s).digest()` at the model level. -/
def sha256 (s : String) : MDigest := ⟨s⟩

/-- `SecurityManager._create_verification_hash`:
`sha256(b"VERIFY:" + password.encode() + salt).digest()`.  (The salt has a
fixed length of 16 bytes in the source, so the concatenation is injective
in the pair.) -/
def create_verification_hash (password salt : String) : MDigest :=
  sha256 ("VERIFY:" ++ password ++ salt)

/-- `SecurityManager._verify_password` (and the public `verify_password`):
constant-time equality of the recomputed tag with the stored one. -/
def verify_password (password salt : String) (stored_hash : MDigest) : Bool :=
  create_verification_hash password salt = stored_hash

/-- `SecurityManager.derive_key`: PBKDF2-HMAC-SHA256(480000) over
`(password, salt)`, modelled by its (injective) preimage pair.  Returns the
key together with the salt used, as the source does. -/
def derive_key (password salt : String) : (String × String) × String :=
  ((password, salt), salt)

/-- Model of the external Fernet authenticated cipher: a token records the
key it was produced under and the plaintext.  Decryption under any other key
fails authentication (`cryptography.fernet.InvalidToken`, an exception whose
`str()` is the empty string). -/
structure FernetToken where
  key : String × String
  plain : String
deriving DecidableEq, Repr

/-- `Fernet(key).encrypt(data)` at the model level. -/
def fernetEncrypt (key : String × String) (data : String) : FernetToken :=
  ⟨key, data⟩

/-- `Fernet(key).decrypt(token)`: returns the plaintext when the key
matches, otherwise fails with the `InvalidToken` exception message (which is
empty). -/
def fernetDecrypt (key : String × String) (t : FernetToken) : Except String String :=
  if t.key = key then .ok t.plain else .error ""

/-- Result dict of `SecurityManager.encrypt_data`. -/
structure EncryptResult where
  data : FernetToken
  salt : String
  verification_hash : MDigest
deriving DecidableEq, Repr

/-- `SecurityManager.encrypt_data`: derives a fresh key from the password and
the (randomly drawn, here explicitly passed) salt, encrypts, and attaches the
password-verification tag. -/
def encrypt_data (data : String) (password : String) (salt : String) : EncryptResult :=
  let key := (derive_key password salt).1
  { data := fernetEncrypt key data
    salt := salt
    verification_hash := create_verification_hash password salt }

/-- `RateLimiter.max_attempts` default (the `SecurityManager` constructs
`RateLimiter()` with defaults). -/
def maxAttempts : Nat := 5

/-- `RateLimiter.window_seconds` default. -/
def windowSeconds : Nat := 300

/-- A row of the persisted `rate_limit_attempts` table: `(key, timestamp)`. -/
abbrev RLState := List (String × Nat)

/-- Return dict of `RateLimiter.check_limit`, extended with the table state
after the call (the cleanup inside the call is committed). -/
structure CheckResult where
  allowed : Bool
  current_attempts : Nat
  remaining : Nat
  wait_time : Nat
  state : RLState
deriving DecidableEq, Repr

/-- `RateLimiter._cleanup_old_attempts`: delete rows for `key` whose
timestamp is strictly older than the window. -/
def cleanup_old_attempts (key : String) (now : Nat) (st : RLState) : RLState :=
  st.filter (fun r => !(r.1 == key && r.2 < now - windowSeconds))

/-- `RateLimiter.check_limit`.  `dbOk = false` models the sqlite layer
raising: the `except` branch returns `allowed = True` with zero attempts and
the table untouched. -/
def check_limit (key : String) (now : Nat) (dbOk : Bool) (st : RLState) : CheckResult :=
  if !dbOk then
    { allowed := true, current_attempts := 0, remaining := maxAttempts
      wait_time := 0, state := st }
  else
    let st1 := cleanup_old_attempts key now st
    let cutoff := now - windowSeconds
    let rows := st1.filter (fun r => r.1 == key && cutoff ≤ r.2)
    let current_attempts := rows.length
    let is_allowed := current_attempts < maxAttempts
    let wait_time :=
      if is_allowed then 0
      else match (rows.map (·.2)).min? with
        | some oldest => windowSeconds - (now - oldest)
        | none => 0
    { allowed := is_allowed
      current_attempts := current_attempts
      remaining := maxAttempts - current_attempts
      wait_time := wait_time
      state := st1 }

/-- `RateLimiter.record_attempt`: on success delete every row for the key,
on failure insert one row stamped `now`; a raising store (`dbOk = false`)
is swallowed, leaving the table unchanged. -/
def record_attempt (key : String) (success : Bool) (now : Nat) (dbOk : Bool)
    (st : RLState) : RLState :=
  if !dbOk then st
  else if success then st.filter (fun r => !(r.1 == key))
  else st ++ [(key, now)]

/-- The error taxonomy of `SecurityManager.decrypt_data`
(`DecryptionRateLimitError`, `InvalidPasswordError`, `DecryptionError`). -/
inductive DecryptError where
  | rateLimited (wait_time : Nat)
  | invalidPassword (msg : String)
  | decryptionError (msg : String)
deriving DecidableEq, Repr

/-- Outcome of one `decrypt_data` call: the returned value or raised error,
the rate-limit table afterwards, and whether the Fernet cipher was invoked. -/
structure DecryptOutcome where
  result : Except DecryptError String
  state : RLState
  cipherRun : Bool
deriving Repr

/-- Python `s.lower()`. -/
def toLowerM (sv : String) : String := ⟨sv.data.map Char.toLower⟩

/-- Python `pat in s`: substring occurrence test. -/
def containsSubAux (pat : List Char) : List Char → Bool
  | [] => pat.isEmpty
  | c :: rest => pat.isPrefixOf (c :: rest) || containsSubAux pat rest

/-- Python `pat in s`. -/
def containsSub (s pat : String) : Bool := containsSubAux pat.data s.data

/-- The cipher phase of `decrypt_data`: run Fernet; on success record a
successful attempt and return the plaintext; on failure record a failed
attempt and normalize the exception by string-matching its message. -/
def decryptCipherPhase (encrypted_data : FernetToken) (password salt : String)
    (st : RLState) (now : Nat) (dbOk : Bool) : DecryptOutcome :=
  let key := (derive_key password salt).1
  match fernetDecrypt key encrypted_data with
  | .ok p => ⟨.ok p, record_attempt "decrypt" true now dbOk st, true⟩
  | .error e =>
      let st2 := record_attempt "decrypt" false now dbOk st
      let error_str := toLowerM e
      if containsSub error_str "invalidtoken" || containsSub error_str "token"
          || containsSub error_str "decrypt" then
        ⟨.error (.invalidPassword "Sandi salah! Dekripsi gagal karena password tidak valid."),
          st2, true⟩
      else
        ⟨.error (.decryptionError ("Dekripsi gagal: " ++ e)), st2, true⟩

/-- `SecurityManager.decrypt_data`: consult the rate limiter for key
`"decrypt"`; if locked raise `DecryptionRateLimitError` without touching the
cipher; if a verification hash is present and does not match, record a failed
attempt and raise `InvalidPasswordError`; otherwise run the cipher. -/
def decrypt_data (encrypted_data : FernetToken) (password salt : String)
    (verification_hash : Option MDigest) (st : RLState) (now : Nat)
    (dbOk : Bool) : DecryptOutcome :=
  let chk := check_limit "decrypt" now dbOk st
  if !chk.allowed then
    ⟨.error (.rateLimited chk.wait_time), chk.state, false⟩
  else
    match verification_hash with
    | some vh =>
        if !(verify_password password salt vh) then
          ⟨.error (.invalidPassword "Sandi salah! Password yang Anda masukkan tidak valid."),
            record_attempt "decrypt" false now dbOk chk.state, false⟩
        else
          decryptCipherPhase encrypted_data password salt chk.state now dbOk
    | none => decryptCipherPhase encrypted_data password salt chk.state now dbOk

/-- Number of rows currently recorded for a key. -/
def countKey (key : String) (st : RLState) : Nat :=
  (st.filter (fun r => r.1 == key)).length

/-- The state after `n` further `decrypt_data` calls with the given
arguments, all at time `now` with the store available. -/
def iterateDecryptState (encrypted_data : FernetToken) (password salt : String)
    (verification_hash : Option MDigest) (now : Nat) :
    Nat → RLState → RLState
  | 0, st => st
  | n + 1, st =>
      iterateDecryptState encrypted_data password salt verification_hash now n
        (decrypt_data encrypted_data password salt verification_hash st now true).state

/-- Whether a decrypt outcome is the rate-limited error. -/
def isRateLimited : Except DecryptError String → Bool
  | .error (.rateLimited _) => true
  | _ => false

end Security

namespace Integrity

/-- Model of `IntegrityManager.calculate_checksum`: the 16-hex-character
truncation of sha256 over the given string, represented by its preimage
(an ideal collision-free digest, the idealization the spec's tamper-evidence
property assumes). -/
structure Checksum where
  pre : String
deriving DecidableEq, Repr

/-- `IntegrityManager.calculate_checksum(data)`. -/
def calculate_checksum (data : String) : Checksum := ⟨data⟩

/-- A row of the `audit_logs` table as fetched by `get_audit_logs`. -/
structure AuditLogEntry where
  id : Nat
  timestamp : String
  action_type : String
  user : String
  file_path : String
  details : String
  severity : String
  checksum : Option Checksum
deriving DecidableEq, Repr

/-- The checksum preimage `f"{action_type}|{file_path}|{details}|{user}"`
built by both `log_audit_event` and `verify_audit_log_integrity`. -/
def eventData (action_type file_path details user : String) : String :=
  action_type ++ "|" ++ file_path ++ "|" ++ details ++ "|" ++ user

/-- `IntegrityManager.log_audit_event`: the row inserted into `audit_logs`.
The id and timestamp are assigned by the database layer and are passed in
explicitly; the checksum covers only `action_type|file_path|details|user`
(the timestamp is deliberately excluded). -/
def log_audit_event (dbId : Nat) (dbTimestamp : String)
    (action_type file_path details user severity : String) : AuditLogEntry :=
  { id := dbId
    timestamp := dbTimestamp
    action_type := action_type
    user := user
    file_path := file_path
    details := details
    severity := severity
    checksum := some (calculate_checksum (eventData action_type file_path details user)) }

/-- The cutover date literal used by `verify_audit_log_integrity`. -/
def cutoverDate : String := "2025-12-15"

/-- Python string `<`: lexicographic comparison by code point. -/
def strLtB (a b : String) : Bool := go a.data b.data where
  go : List Char → List Char → Bool
    | [], [] => false
    | [], _ :: _ => true
    | _ :: _, [] => false
    | x :: xs, y :: ys => if x < y then true else if x = y then go xs ys else false

/-- Per-entry classification inside `verify_audit_log_integrity`. -/
inductive EntryClass where
  | valid
  | tampered
  | legacy
deriving DecidableEq, Repr

/-- One loop iteration of `verify_audit_log_integrity`: entries without a
checksum are legacy; otherwise the checksum is recomputed from
`action_type|file_path|details|user`; a mismatch dated before the cutover is
legacy, any other mismatch is tampered. -/
def classifyEntry (e : AuditLogEntry) : EntryClass :=
  match e.checksum with
  | none => .legacy
  | some c =>
      if c = calculate_checksum (eventData e.action_type e.file_path e.details e.user) then
        .valid
      else if e.timestamp != "" && strLtB e.timestamp cutoverDate then
        .legacy
      else
        .tampered

/-- Return dict of `verify_audit_log_integrity`. -/
structure AuditIntegrityReport where
  total_logs : Nat
  valid : Nat
  tampered : Nat
  legacy : Nat
  integrity_valid : Bool
deriving DecidableEq, Repr

/-- `IntegrityManager.verify_audit_log_integrity` over the fetched rows:
counts the per-entry classifications; integrity holds iff no entry is
tampered. -/
def verify_audit_log_integrity (logs : List AuditLogEntry) : AuditIntegrityReport :=
  let valid_count := logs.countP (fun e => classifyEntry e == .valid)
  let tampered_count := logs.countP (fun e => classifyEntry e == .tampered)
  let legacy_count := logs.countP (fun e => classifyEntry e == .legacy)
  { total_logs := logs.length
    valid := valid_count
    tampered := tampered_count
    legacy := legacy_count
    integrity_valid := tampered_count == 0 }

end Integrity

namespace Backup

/-- An absolute, normalized POSIX path as its list of components
(`[]` is the filesystem root `/`). -/
abbrev AbsPath := List String

/-- The string rendering of an absolute path, as `os.path` functions see
it: `/` for the root, otherwise `/` followed by the components joined
with `/`. -/
def pathToString : AbsPath → String
  | [] => "/"
  | [c] => "/" ++ c
  | c :: c2 :: rest => "/" ++ c ++ pathToString (c2 :: rest)

/-- `os.path.basename(s)`: the suffix of `s` after its last `/`. -/
def basename (s : String) : String :=
  ⟨(s.data.reverse.takeWhile (fun ch => ch ≠ '/')).reverse⟩

/-- `os.path.abspath(os.path.join(dir, f))` for an already-normalized
absolute `dir` and a separator-free `f` (the argument is always the result
of `basename`): joining appends one path component, and normalization sends
`""` and `"."` to `dir` itself and `".."` to its parent. -/
def normJoin (dir : AbsPath) (f : String) : AbsPath :=
  if f = "" ∨ f = "." then dir
  else if f = ".." then dir.dropLast
  else dir ++ [f]

/-- Python `target.startswith(pre)`: a character-level prefix test. -/
def startsWithM (target pre : String) : Bool :=
  pre.data.isPrefixOf target.data

/-- The Zip-Slip guard of `restore_backup`:
`target_path.startswith(restore_dir + os.sep)`. -/
def slipCheck (restoreDir target : AbsPath) : Bool :=
  startsWithM (pathToString target) (pathToString restoreDir ++ "/")

/-- One entry of `manifest['files']` as read by `restore_backup`. -/
structure ManifestEntry where
  path : String
  hash : String
  permission : String
deriving DecidableEq, Repr

/-- Accumulated outcome of the `restore_backup` loop, extended with the
list of filesystem targets actually written by `zf.extract`. -/
structure RestoreOutcome where
  restored : List (String × String)
  errors : List String
  written : List AbsPath
deriving DecidableEq, Repr

/-- One iteration of the `restore_backup` loop for a manifest entry:
compute the basename, normalize the join against the restore root, refuse
and continue on the Zip-Slip guard, otherwise extract, re-apply the
recorded permission, and compare the recomputed hash against the manifest
hash.  `archive` gives the content hash of an archive member, or `none`
when the member is missing (in which case `zf.extract` raises and the
per-entry handler records an error). -/
def restoreOneEntry (restoreDir : AbsPath) (archive : String → Option String)
    (e : ManifestEntry) : RestoreOutcome :=
  let filename := basename e.path
  let target := normJoin restoreDir filename
  if !(slipCheck restoreDir target) then
    { restored := [], errors := ["Blocked path traversal attempt: " ++ filename],
      written := [] }
  else
    match archive filename with
    | none =>
        { restored := [],
          errors := ["Failed to restore " ++ filename ++ ": member not in archive"],
          written := [] }
    | some h =>
        if h ≠ e.hash then
          { restored := [], errors := ["Integrity check failed for " ++ filename],
            written := [target] }
        else
          { restored := [(filename, e.permission)], errors := [], written := [target] }

/-- The `restore_backup` loop over all manifest entries, in order. -/
def restoreEntries (restoreDir : AbsPath) (archive : String → Option String) :
    List ManifestEntry → RestoreOutcome
  | [] => { restored := [], errors := [], written := [] }
  | e :: rest =>
      let one := restoreOneEntry restoreDir archive e
      let others := restoreEntries restoreDir archive rest
      { restored := one.restored ++ others.restored
        errors := one.errors ++ others.errors
        written := one.written ++ others.written }

/-- `BackupManager.restore_backup` on an archive with a readable manifest:
the loop result with `success = True` (the loop never clears the flag). -/
def restore_backup (restoreDir : AbsPath) (archive : String → Option String)
    (manifestFiles : List ManifestEntry) : Bool × RestoreOutcome :=
  (true, restoreEntries restoreDir archive manifestFiles)

end Backup

namespace Security

/-- Byte layout of an encrypted container file as written to disk:
a 16-byte salt, optionally a 32-byte verification tag, then the ciphertext.
The spec's format is `salt(16) || verificationTag(32) || ciphertext`. -/
structure EncFileLayout where
  salt : String
  verification_tag : Option MDigest
  ciphertext : FernetToken
deriving DecidableEq, Repr

end Security

namespace Pipeline

/-- `PipelineStep`. -/
inductive PStep where
  | scan
  | backup
  | hash_before
  | encrypt
  | change_permission
  | hash_after
  | completed
  | failed
  | rolled_back
deriving DecidableEq, Repr

/-- One element of `files_data`: the record's path and (already parsed,
`int(expected, 8)`) declared expected mode; an absent or empty `expected`
is `none`. -/
structure FileData where
  path : String
  expected : Option Nat
  risk : String
deriving DecidableEq, Repr

/-- The observable state of one path: existence, permission bits
(`st_mode & 0o777`), content hash (`calculate_sha256`, `none` when
unreadable), read access, and the attributes `determine_appropriate_permission`
inspects. -/
structure FileSt where
  present : Bool
  mode : Nat
  hash : Option String
  readable : Bool
  isDir : Bool
  isLink : Bool
  execAccess : Bool
deriving DecidableEq, Repr

/-- The filesystem: per-path state plus whether a `chmod` by this process
on the path succeeds. -/
structure FS where
  files : String → FileSt
  chmodOk : String → Bool

/-- `os.chmod(p, m)` after it succeeded: the path's mode bits become `m`,
nothing else changes. -/
def updMode (fs : FS) (p : String) (m : Nat) : FS :=
  { fs with files := fun q => if q = p then { fs.files q with mode := m } else fs.files q }

/-- A changed-file record in `rollback_data['changed_files']`. -/
structure ChangedFile where
  path : String
  old_mode : Nat
  new_mode : Nat
deriving DecidableEq, Repr

/-- `StepResult`, with the `data`/`rollback_data` dict entries the claims
need lifted into typed optional fields. -/
structure StepRes where
  step : PStep
  success : Bool
  message : String
  backup_path : Option String := none
  hashes : List (String × String) := []
  encrypted_path : Option String := none
  encLayout : Option Security.EncFileLayout := none
  encryptedFlag : Option Bool := none
  success_count : Nat := 0
  failed_count : Nat := 0
  changed_files : List ChangedFile := []
deriving DecidableEq, Repr

/-- Per-step rollback record appended to `rollback_results`. -/
structure RollbackInfo where
  step : PStep
  success : Bool
  message : String
deriving DecidableEq, Repr

/-- `PipelineResult`. -/
structure PipelineResult where
  success : Bool
  completed_steps : List StepRes
  failed_step : Option StepRes
  rolled_back : Bool
  rollback_results : List RollbackInfo
  total_files : Nat
  files_processed : Nat
deriving DecidableEq, Repr

/-- Pipeline construction arguments that matter to the claims. -/
structure PipeCfg where
  enable_encryption : Bool
  encryption_password : Option String
deriving DecidableEq, Repr

/-- Python truthiness of the optional password string. -/
def pwTruthy : Option String → Bool
  | some p => p ≠ ""
  | none => false

/-- `PermissionPipeline._step_scan`: every declared path must exist; any
missing path fails the whole step. -/
def step_scan (fs : FS) (files_data : List FileData) : StepRes :=
  let missing := (files_data.map (·.path)).filter (fun p => !(fs.files p).present)
  if missing ≠ [] then
    { step := .scan, success := false
      message := "Missing files: " ++ toString missing.length }
  else
    { step := .scan, success := true
      message := "All " ++ toString files_data.length ++ " files validated" }

/-- `PermissionPipeline._step_backup`: snapshot current permissions into a
JSON permission backup.  The artifact path is produced from the current
timestamp by `PermissionBackup.create_backup` and is passed in here;
`backupOk = false` models that call raising. -/
def step_backup (backupPath : String) (backupOk : Bool) : StepRes :=
  if backupOk then
    { step := .backup, success := true, message := "Backup created"
      backup_path := some backupPath }
  else
    { step := .backup, success := false, message := "Backup creation failed" }

/-- `PermissionPipeline._step_hash_before`: record the sha256 of every file
that hashes successfully (kept in memory as `_hashes_before`).  Every
declared path exists once Scan has passed, so the `os.stat` inside cannot
raise; the JSON sidecar write is assumed to succeed. -/
def step_hash_before (fs : FS) (files_data : List FileData) : StepRes :=
  let hashes := files_data.filterMap
    (fun f => ((fs.files f.path).hash).map (fun h => (f.path, h)))
  { step := .hash_before, success := true
    message := "Calculated hashes for " ++ toString hashes.length ++ " files"
    hashes := hashes }

/-- `PermissionPipeline._step_encrypt`: if the security manager is absent or
no backup path was handed over, the step succeeds with
"Encryption skipped (not configured)"; otherwise it reads the artifact,
encrypts it, and writes `salt` followed directly by the ciphertext to
`<path>.enc` — the verification tag is not written. -/
def step_encrypt (hasManager : Bool) (password : String) (saltDraw : String)
    (backup_path : Option String) (readContent : String → String) : StepRes :=
  match backup_path, hasManager with
  | some bp, true =>
      let r := Security.encrypt_data (readContent bp) password saltDraw
      { step := .encrypt, success := true
        message := "Backup encrypted"
        encrypted_path := some (bp ++ ".enc")
        encLayout := some { salt := r.salt, verification_tag := none, ciphertext := r.data } }
  | _, _ =>
      { step := .encrypt, success := true
        message := "Encryption skipped (not configured)"
        encryptedFlag := some false }

/-- `PermissionFixer.determine_appropriate_permission`. -/
def determine_appropriate_permission (fs : FS) (p : String) : Nat :=
  let f := fs.files p
  if f.isDir then 0o755
  else if f.isLink then 0o777
  else if f.execAccess then 0o755
  else if [".sh", ".py", ".exe", ".bin", ".run", ".app"].any (fun ext => p.endsWith ext) then 0o755
  else if f.present && f.mode &&& 0o111 != 0 then 0o755
  else 0o644

/-- The per-file target mode of `_step_change_permission`: `custom_mode`
when given, else the record's declared expected mode, else the
`PermissionFixer` fallback. -/
def chosenMode (fs : FS) (custom_mode : Option Nat) (f : FileData) : Nat :=
  match custom_mode with
  | some m => m
  | none =>
      match f.expected with
      | some em => em
      | none => determine_appropriate_permission fs f.path

/-- One iteration of the `_step_change_permission` loop: `os.stat` raising
(missing file) or `os.chmod` raising counts the file as failed; a successful
and verified chmod records the pre-change and new modes. -/
def changeOne (fs : FS) (custom_mode : Option Nat) (f : FileData) :
    Option ChangedFile × FS :=
  let new_mode := chosenMode fs custom_mode f
  if !(fs.files f.path).present then (none, fs)
  else if fs.chmodOk f.path then
    (some { path := f.path, old_mode := (fs.files f.path).mode, new_mode := new_mode },
      updMode fs f.path new_mode)
  else (none, fs)

/-- The `_step_change_permission` loop: changed records, success count,
failed count, and the filesystem afterwards. -/
def changeFold (fs : FS) (custom_mode : Option Nat) :
    List FileData → List ChangedFile × Nat × Nat × FS
  | [] => ([], 0, 0, fs)
  | f :: rest =>
      let one := changeOne fs custom_mode f
      let rec_rest := changeFold one.2 custom_mode rest
      match one.1 with
      | some c => (c :: rec_rest.1, rec_rest.2.1 + 1, rec_rest.2.2.1, rec_rest.2.2.2)
      | none => (rec_rest.1, rec_rest.2.1, rec_rest.2.2.1 + 1, rec_rest.2.2.2)

/-- `PermissionPipeline._step_change_permission`: run the loop; the step is
marked failed exactly when `failed_count / len(files_data) > 0.5`
(equivalently `2 * failed_count > len(files_data)`; the double-precision
division the source uses decides this comparison exactly). -/
def step_change_permission (fs : FS) (files_data : List FileData)
    (custom_mode : Option Nat) : StepRes × FS :=
  let r := changeFold fs custom_mode files_data
  if 2 * r.2.2.1 > files_data.length then
    ({ step := .change_permission, success := false
       message := "Too many failures: " ++ toString r.2.2.1 ++ "/" ++ toString files_data.length
       success_count := r.2.1, failed_count := r.2.2.1, changed_files := r.1 }, r.2.2.2)
  else
    ({ step := .change_permission, success := true
       message := "Changed " ++ toString r.2.1 ++ " files, " ++ toString r.2.2.1 ++ " failed"
       success_count := r.2.1, failed_count := r.2.2.1, changed_files := r.1 }, r.2.2.2)

/-- The corrupted-file list computed by `_step_hash_after`: files whose
recomputed hash (`hashAt6`, the sha256 observed by the second pass — it
differs from the recorded one only if the content was modified outside the
pipeline) disagrees with the retained `_hashes_before` entry.
`self._encrypted_files` is never added to, so no file is exempt. -/
def hashAfterCorrupted (hashes_before : List (String × String))
    (hashAt6 : String → Option String) (files_data : List FileData) : List String :=
  (files_data.filter (fun f =>
    match hashAt6 f.path, hashes_before.lookup f.path with
    | some h, some hb => hb != h
    | _, _ => false)).map (·.path)

/-- The `integrity_failed` counter of `_step_hash_after`: files that hash
but are neither corrupted nor readable. -/
def hashAfterFailedCount (fs : FS) (hashes_before : List (String × String))
    (hashAt6 : String → Option String) (files_data : List FileData) : Nat :=
  files_data.countP (fun f =>
    match hashAt6 f.path, hashes_before.lookup f.path with
    | some h, some hb => hb == h && !(fs.files f.path).readable
    | some _, none => !(fs.files f.path).readable
    | none, _ => false)

/-- `PermissionPipeline._step_hash_after`: recompute hashes; any divergence
from `_hashes_before` is data corruption and fails the step; loss of
readability also fails it. -/
def step_hash_after (fs : FS) (files_data : List FileData)
    (hashes_before : List (String × String))
    (hashAt6 : String → Option String) : StepRes :=
  let corrupted := hashAfterCorrupted hashes_before hashAt6 files_data
  let failedN := hashAfterFailedCount fs hashes_before hashAt6 files_data
  if corrupted ≠ [] then
    { step := .hash_after, success := false
      message := "DATA CORRUPTION DETECTED in " ++ toString corrupted.length ++ " file(s)" }
  else if failedN > 0 then
    { step := .hash_after, success := false
      message := "Integrity check failed for " ++ toString failedN ++ " files" }
  else
    { step := .hash_after, success := true
      message := "Verified integrity" }

/-- The ChangePermission rollback loop inside `_rollback_step`: restore each
individually changed file to its recorded pre-change mode; a failing
`os.chmod` (missing file or denied) is swallowed by the bare `except: pass`
and the loop continues. -/
def restoreChanged (cs : List ChangedFile) (fs : FS) : FS :=
  cs.foldl
    (fun acc c =>
      if (acc.files c.path).present && acc.chmodOk c.path then
        updMode acc c.path c.old_mode
      else acc) fs

/-- `PermissionPipeline._rollback_step`: ChangePermission restores each
individually changed file to its recorded pre-change mode (each `os.chmod`
failure is swallowed by a bare `except: pass`), Encrypt deletes the
encrypted artifact, Backup is preserved, everything else needs no
rollback.  The whole body is wrapped in a try/except, so a rollback failure
is recorded in the info dict and never propagates. -/
def rollback_step (fs : FS) (sr : StepRes) : RollbackInfo × FS :=
  match sr.step with
  | .change_permission =>
      let fs2 := restoreChanged sr.changed_files fs
      ({ step := .change_permission, success := true
         message := "Restored " ++ toString sr.changed_files.length ++ " file permissions" }, fs2)
  | .encrypt =>
      ({ step := .encrypt, success := true, message := "Removed encrypted backup" }, fs)
  | .backup =>
      ({ step := .backup, success := true, message := "Backup preserved for reference" }, fs)
  | s =>
      ({ step := s, success := true, message := "No rollback needed" }, fs)

/-- The loop body of `_rollback`: roll back the given step results in list
order, threading the filesystem and collecting one record per step. -/
def rollbackGo (fs : FS) : List StepRes → List RollbackInfo × FS
  | [] => ([], fs)
  | sr :: rest =>
      let one := rollback_step fs sr
      let others := rollbackGo one.2 rest
      (one.1 :: others.1, others.2)

/-- `PermissionPipeline._rollback`: roll the completed steps back in
reverse order of execution, appending one rollback record per step. -/
def rollback (fs : FS) (stack : List StepRes) : List RollbackInfo × FS :=
  rollbackGo fs stack.reverse

/-- `PermissionPipeline.execute`: run the six steps strictly in order,
appending each `StepResult` to `completed_steps`; on the first unsuccessful
step record it as `failed_step`, roll back every previously completed step
(none for a Scan failure, whose early return skips `_rollback`), and
finalize.  The Encrypt branch runs only when encryption is enabled and the
password is truthy, and — as in the source — receives
`step_result.data.get('backup_path')` of the *HashBefore* result. -/
def executeTail (r0 : PipelineResult) (fsIn : FS) (files_data : List FileData)
    (custom_mode : Option Nat) (hashAt6 : String → Option String)
    (completed : List StepRes) (stack : List StepRes)
    (hashes_before : List (String × String)) : PipelineResult × FS :=
  let s5p := step_change_permission fsIn files_data custom_mode
  let s5 := s5p.1
  let fs5 := s5p.2
  if !s5.success then
    let rb := rollback fs5 stack
    ({ r0 with
        completed_steps := completed ++ [s5], failed_step := some s5,
        rolled_back := true, rollback_results := rb.1 }, rb.2)
  else
    let stack5 := stack ++ [s5]
    let s6 := step_hash_after fs5 files_data hashes_before hashAt6
    if !s6.success then
      let rb := rollback fs5 stack5
      ({ r0 with
          completed_steps := completed ++ [s5, s6], failed_step := some s6,
          rolled_back := true, rollback_results := rb.1,
          files_processed := s5.success_count }, rb.2)
    else
      ({ r0 with
          success := true, completed_steps := completed ++ [s5, s6],
          files_processed := s5.success_count }, fs5)

/-- `PermissionPipeline.execute`: run the six steps strictly in order,
appending each `StepResult` to `completed_steps`; on the first unsuccessful
step record it as `failed_step`, roll back every previously completed step
(none for a Scan failure, whose early return skips `_rollback`), and
finalize.  The Encrypt branch runs only when encryption is enabled and the
password is truthy, and — as in the source — receives
`step_result.data.get('backup_path')` of the *HashBefore* result.
The ChangePermission and HashAfter phases are `executeTail` above. -/
def execute (cfg : PipeCfg) (fs0 : FS) (files_data : List FileData)
    (custom_mode : Option Nat) (backupPath : String) (backupOk : Bool)
    (readContent : String → String) (saltDraw : String)
    (hashAt6 : String → Option String) : PipelineResult × FS :=
  let r0 : PipelineResult :=
    { success := false, completed_steps := [], failed_step := none,
      rolled_back := false, rollback_results := [], total_files := files_data.length,
      files_processed := 0 }
  let s1 := step_scan fs0 files_data
  if !s1.success then
    ({ r0 with completed_steps := [s1], failed_step := some s1 }, fs0)
  else
    let stack1 := [s1]
    let s2 := step_backup backupPath backupOk
    if !s2.success then
      let rb := rollback fs0 stack1
      ({ r0 with
          completed_steps := [s1, s2], failed_step := some s2,
          rolled_back := true, rollback_results := rb.1 }, rb.2)
    else
      let stack2 := stack1 ++ [s2]
      let s3 := step_hash_before fs0 files_data
      if !s3.success then
        let rb := rollback fs0 stack2
        ({ r0 with
            completed_steps := [s1, s2, s3], failed_step := some s3,
            rolled_back := true, rollback_results := rb.1 }, rb.2)
      else
        let stack3 := stack2 ++ [s3]
        let encOn := cfg.enable_encryption && pwTruthy cfg.encryption_password
        if encOn then
          let s4 := step_encrypt cfg.enable_encryption
            (cfg.encryption_password.getD "") saltDraw s3.backup_path readContent
          if !s4.success then
            let rb := rollback fs0 stack3
            ({ r0 with
                completed_steps := [s1, s2, s3, s4], failed_step := some s4,
                rolled_back := true, rollback_results := rb.1 }, rb.2)
          else
            executeTail r0 fs0 files_data custom_mode hashAt6 [s1, s2, s3, s4]
              (stack3 ++ [s4]) s3.hashes
        else
          executeTail r0 fs0 files_data custom_mode hashAt6 [s1, s2, s3]
            stack3 s3.hashes

end Pipeline

namespace EncMgr

/-- `EncryptionWorker._encrypt_file` chunk size. -/
def CHUNK_SIZE : Nat := 64 * 1024

/-- `EncryptionWorker._encrypt_file` large-file *warning* threshold
(100 MB); the source has no rejection cap. -/
def MAX_FILE_SIZE : Nat := 100 * 1024 * 1024

/-- Observable outcome of `EncryptionWorker._encrypt_file`: the returned
bool, whether the large-file warning was emitted, how many bytes of
plaintext were read, and the container layout written to `<path>.enc`. -/
structure EncryptFileOutcome where
  result : Bool
  warned : Bool
  bytesRead : Nat
  layout : Option Security.EncFileLayout
deriving DecidableEq, Repr

/-- `EncryptionWorker._encrypt_file`: symlinks are skipped; a file larger
than `MAX_FILE_SIZE` only triggers a progress warning; the whole file is
read in 64 KiB chunks, reassembled, encrypted, and written as
`salt || verification_hash || ciphertext`; the original is quarantined. -/
def encrypt_file (isLink : Bool) (file_size : Nat) (content : String)
    (password saltDraw : String) : EncryptFileOutcome :=
  if isLink then
    { result := false, warned := false, bytesRead := 0, layout := none }
  else
    let warned := file_size > MAX_FILE_SIZE
    let data := content
    let r := Security.encrypt_data data password saltDraw
    { result := true
      warned := warned
      bytesRead := file_size
      layout := some { salt := r.salt, verification_tag := some r.verification_hash
                       ciphertext := r.data } }

end EncMgr

/-! ## Helper lemmas -/

theorem string_append_right_cancel {a b c : String} (h : a ++ c = b ++ c) : a = b := by
  have hd : a.data ++ c.data = b.data ++ c.data := by
    simpa [String.data_append] using congrArg String.data h
  exact String.ext (List.append_cancel_right hd)

theorem string_append_left_cancel {a b c : String} (h : c ++ a = c ++ b) : a = b := by
  have hd : c.data ++ a.data = c.data ++ b.data := by
    simpa [String.data_append] using congrArg String.data h
  exact String.ext (List.append_cancel_left hd)

namespace Security

theorem verify_password_correct (w salt : String) :
    verify_password w salt (create_verification_hash w salt) = true := by
  simp [verify_password]

theorem verify_password_wrong {w w' salt : String} (h : w' ≠ w) :
    verify_password w' salt (create_verification_hash w salt) = false := by
  simp only [verify_password, create_verification_hash, sha256,
    decide_eq_false_iff_not, ne_eq, MDigest.mk.injEq]
  intro heq
  exact h (string_append_left_cancel (string_append_right_cancel heq))

end Security

/-! ## C5: encrypt/decrypt round trip -/

/-- C5: for all plaintexts `p` and passwords `w`, decrypting the ciphertext
produced by `encrypt_data p w` with the same password, the returned salt and
the returned verification tag yields exactly `p` (whenever the decrypt
attempt is not rate-limited, which the source checks first). -/
theorem C5_encrypt_decrypt_roundtrip (p w salt : String) (st : Security.RLState)
    (now : Nat) (h : (Security.check_limit "decrypt" now true st).allowed = true) :
    (Security.decrypt_data (Security.encrypt_data p w salt).data w
      (Security.encrypt_data p w salt).salt
      (some (Security.encrypt_data p w salt).verification_hash) st now true).result
      = Except.ok p := by
  simp [Security.decrypt_data, h, Security.encrypt_data, Security.decryptCipherPhase,
    Security.fernetDecrypt, Security.fernetEncrypt, Security.verify_password_correct,
    Security.derive_key]

/-- C5 witness: the round trip at a concrete plaintext, password, salt and a
fresh rate-limit table. -/
theorem C5_encrypt_decrypt_roundtrip_witness :
    (Security.check_limit "decrypt" 1000 true []).allowed = true ∧
    (Security.decrypt_data (Security.encrypt_data "hello" "pw" "SALT").data "pw"
      (Security.encrypt_data "hello" "pw" "SALT").salt
      (some (Security.encrypt_data "hello" "pw" "SALT").verification_hash) [] 1000 true).result
      = Except.ok "hello" :=
  ⟨by decide, C5_encrypt_decrypt_roundtrip "hello" "pw" "SALT" [] 1000 (by decide)⟩

/-! ## C2: rate-limit lockout and reset -/

namespace Security

theorem cleanup_replicate (now k : Nat) :
    cleanup_old_attempts "decrypt" now (List.replicate k ("decrypt", now)) =
      List.replicate k ("decrypt", now) := by
  simp [cleanup_old_attempts, List.filter_replicate, Nat.not_lt, Nat.sub_le]

theorem rows_filter_replicate (now k : Nat) :
    (List.replicate k (("decrypt", now) : String × Nat)).filter
        (fun r => r.1 == "decrypt" && now - windowSeconds ≤ r.2) =
      List.replicate k ("decrypt", now) := by
  simp [List.filter_replicate, Nat.sub_le]

theorem check_limit_replicate (now k : Nat) :
    check_limit "decrypt" now true (List.replicate k ("decrypt", now)) =
      { allowed := decide (k < 5)
        current_attempts := k
        remaining := 5 - k
        wait_time := if k < 5 then 0 else 300
        state := List.replicate k ("decrypt", now) } := by
  by_cases hk : k < 5
  · simp [check_limit, cleanup_replicate, rows_filter_replicate, maxAttempts,
      windowSeconds, hk]
  · have hk0 : k ≠ 0 := by omega
    simp [check_limit, cleanup_replicate, rows_filter_replicate, maxAttempts,
      windowSeconds, hk, List.map_replicate, List.min?_replicate, hk0]

theorem decrypt_wrong_step (ct : FernetToken) (w w' salt : String) (now k : Nat)
    (hw : w' ≠ w) (hk : k < 5) :
    decrypt_data ct w' salt (some (create_verification_hash w salt))
      (List.replicate k ("decrypt", now)) now true =
    ⟨.error (.invalidPassword "Sandi salah! Password yang Anda masukkan tidak valid."),
      List.replicate (k + 1) ("decrypt", now), false⟩ := by
  simp [decrypt_data, check_limit_replicate, hk, verify_password_wrong hw,
    record_attempt]
  exact (List.replicate_succ' k ("decrypt", now)).symm

end Security

namespace Security

theorem iterate_from_replicate (ct : FernetToken) (w w' salt : String) (now : Nat)
    (hw : w' ≠ w) (n k : Nat) (h : k + n ≤ 5) :
    iterateDecryptState ct w' salt (some (create_verification_hash w salt)) now n
      (List.replicate k ("decrypt", now)) = List.replicate (k + n) ("decrypt", now) := by
  induction n generalizing k with
  | zero => simp [iterateDecryptState]
  | succ m ih =>
      have hk : k < 5 := by omega
      simp only [iterateDecryptState, decrypt_wrong_step ct w w' salt now k hw hk]
      have := ih (k + 1) (by omega)
      simpa [Nat.add_comm, Nat.add_assoc, Nat.add_left_comm] using this

theorem iterate_wrong_password (ct : FernetToken) (w w' salt : String) (now : Nat)
    (hw : w' ≠ w) :
    iterateDecryptState ct w' salt (some (create_verification_hash w salt)) now 5 [] =
      List.replicate 5 ("decrypt", now) := by
  have h := iterate_from_replicate ct w w' salt now hw 5 0 (by omega)
  simpa using h

theorem countKey_append_fail (now : Nat) (st : RLState) :
    countKey "decrypt" (st ++ [("decrypt", now)]) = countKey "decrypt" st + 1 := by
  simp [countKey, List.filter_append]

theorem countKey_record_success (now : Nat) (st : RLState) :
    countKey "decrypt" (record_attempt "decrypt" true now true st) = 0 := by
  simp [countKey, record_attempt, List.filter_filter]

theorem countKey_check_not_allowed (now : Nat) (st : RLState)
    (h : (check_limit "decrypt" now true st).allowed = false) :
    5 ≤ countKey "decrypt" (check_limit "decrypt" now true st).state := by
  simp only [check_limit, Bool.not_true, Bool.false_eq_true, if_false, ite_false,
    decide_eq_false_iff_not, Nat.not_lt, maxAttempts] at h ⊢
  have hmono : ((cleanup_old_attempts "decrypt" now st).filter
      (fun r => r.1 == "decrypt" && now - windowSeconds ≤ r.2)).length ≤
      countKey "decrypt" (cleanup_old_attempts "decrypt" now st) := by
    simp only [countKey, ← List.countP_eq_length_filter]
    refine List.countP_mono_left ?_
    intro r _ hr
    exact (Bool.and_eq_true _ _ |>.mp hr).1
  exact le_trans h hmono

end Security

namespace Security

theorem countKey_cipher_phase_zero_iff (ct : FernetToken) (pw salt : String)
    (stc : RLState) (now : Nat) :
    (countKey "decrypt" (decryptCipherPhase ct pw salt stc now true).state = 0
      ↔ ∃ q, (decryptCipherPhase ct pw salt stc now true).result = Except.ok q) := by
  unfold decryptCipherPhase fernetDecrypt
  by_cases hk : ct.key = (derive_key pw salt).1
  · simp [hk, countKey_record_success]
  · simp only [hk, if_false, ite_false, record_attempt, Bool.not_true]
    split <;> simp [countKey_append_fail]

theorem countKey_zero_iff_ok (ct : FernetToken) (pw salt : String)
    (vh : Option MDigest) (st : RLState) (now : Nat) :
    (countKey "decrypt" (decrypt_data ct pw salt vh st now true).state = 0
      ↔ ∃ q, (decrypt_data ct pw salt vh st now true).result = Except.ok q) := by
  by_cases hA : (check_limit "decrypt" now true st).allowed
  · cases vh with
    | none =>
        simpa [decrypt_data, hA] using
          countKey_cipher_phase_zero_iff ct pw salt (check_limit "decrypt" now true st).state now
    | some v =>
        by_cases hv : verify_password pw salt v
        · simpa [decrypt_data, hA, hv] using
            countKey_cipher_phase_zero_iff ct pw salt (check_limit "decrypt" now true st).state now
        · simp [decrypt_data, hA, hv, record_attempt, countKey_append_fail]
  · have h5 := countKey_check_not_allowed now st (by simpa using hA)
    simp only [decrypt_data, Bool.not_eq_true] at hA ⊢
    simp [hA]
    omega

end Security

/-! ## C2 -/

/-- C2: after `maxAttempts` (5) consecutive failed `decrypt` calls for the
key `"decrypt"` within the trailing window, the next `decrypt_data` call
fails with the rate-limited error without the cipher being invoked, even
though the supplied password (and tag) are now correct; and the attempt
counter for the key is 0 after a call exactly when that call succeeded. -/
theorem C2_rate_limit_lockout_and_reset (p w w' salt : String) (now : Nat)
    (hw : w' ≠ w) :
    ((Security.decrypt_data (Security.encrypt_data p w salt).data w salt
        (some (Security.encrypt_data p w salt).verification_hash)
        (Security.iterateDecryptState (Security.encrypt_data p w salt).data w' salt
          (some (Security.encrypt_data p w salt).verification_hash) now 5 []) now true).result
        = Except.error (.rateLimited 300)
      ∧ (Security.decrypt_data (Security.encrypt_data p w salt).data w salt
        (some (Security.encrypt_data p w salt).verification_hash)
        (Security.iterateDecryptState (Security.encrypt_data p w salt).data w' salt
          (some (Security.encrypt_data p w salt).verification_hash) now 5 []) now true).cipherRun
        = false)
    ∧ ∀ (ct : Security.FernetToken) (pw salt' : String)
        (vh : Option Security.MDigest) (st : Security.RLState),
        (Security.countKey "decrypt" (Security.decrypt_data ct pw salt' vh st now true).state = 0
          ↔ ∃ q, (Security.decrypt_data ct pw salt' vh st now true).result = Except.ok q) := by
  constructor
  · have hit := Security.iterate_wrong_password (Security.encrypt_data p w salt).data
      w w' salt now hw
    simp only [Security.encrypt_data] at hit ⊢
    rw [hit]
    constructor
    · simp only [Security.decrypt_data, Security.check_limit_replicate]
      norm_num
    · simp only [Security.decrypt_data, Security.check_limit_replicate]
      norm_num
  · intro ct pw salt' vh st
    exact Security.countKey_zero_iff_ok ct pw salt' vh st now

/-- C2 witness: the lockout-and-reset property at a concrete password pair,
salt and time. -/
theorem C2_rate_limit_lockout_and_reset_witness :
    ("bad" : String) ≠ "pw" ∧
    (((Security.decrypt_data (Security.encrypt_data "data" "pw" "SALT").data "pw" "SALT"
        (some (Security.encrypt_data "data" "pw" "SALT").verification_hash)
        (Security.iterateDecryptState (Security.encrypt_data "data" "pw" "SALT").data "bad" "SALT"
          (some (Security.encrypt_data "data" "pw" "SALT").verification_hash) 1000 5 []) 1000 true).result
        = Except.error (.rateLimited 300)
      ∧ (Security.decrypt_data (Security.encrypt_data "data" "pw" "SALT").data "pw" "SALT"
        (some (Security.encrypt_data "data" "pw" "SALT").verification_hash)
        (Security.iterateDecryptState (Security.encrypt_data "data" "pw" "SALT").data "bad" "SALT"
          (some (Security.encrypt_data "data" "pw" "SALT").verification_hash) 1000 5 []) 1000 true).cipherRun
        = false)
    ∧ ∀ (ct : Security.FernetToken) (pw salt' : String)
        (vh : Option Security.MDigest) (st : Security.RLState),
        (Security.countKey "decrypt" (Security.decrypt_data ct pw salt' vh st 1000 true).state = 0
          ↔ ∃ q, (Security.decrypt_data ct pw salt' vh st 1000 true).result = Except.ok q)) :=
  ⟨by decide, C2_rate_limit_lockout_and_reset "data" "pw" "bad" "SALT" 1000 (by decide)⟩

/-! ## C6: wrong-password rejection and error normalization -/

/-- C6 counterexample: a container carrying a *matching* verification tag but
a ciphertext that fails cipher authentication (it was produced under a
different key).  The cipher runs and its authentication failure
(`InvalidToken`, whose message is empty) is surfaced as `DecryptionError`,
not `InvalidPassword` — refuting "any underlying cipher authentication
failure is surfaced as InvalidPassword". -/
theorem C6_counterexample :
    Security.verify_password "pw" "SALT"
        (Security.create_verification_hash "pw" "SALT") = true
    ∧ (Security.decrypt_data ⟨("other", "SALT"), "junk"⟩ "pw" "SALT"
        (some (Security.create_verification_hash "pw" "SALT")) [] 0 true).cipherRun = true
    ∧ (Security.decrypt_data ⟨("other", "SALT"), "junk"⟩ "pw" "SALT"
        (some (Security.create_verification_hash "pw" "SALT")) [] 0 true).result
        = Except.error (.decryptionError "Dekripsi gagal: ") := by
  exact ⟨by decide, by decide, by rfl⟩

namespace Security

theorem cipher_phase_ok_inv (ct : FernetToken) (pw salt : String) (stc : RLState)
    (now : Nat) (dbOk : Bool) (q : String)
    (h : (decryptCipherPhase ct pw salt stc now dbOk).result = Except.ok q) :
    ct = fernetEncrypt (derive_key pw salt).1 q := by
  unfold decryptCipherPhase fernetDecrypt at h
  by_cases hk : ct.key = (derive_key pw salt).1
  · simp only [hk, if_true, ite_true, Except.ok.injEq] at h
    cases ct with
    | mk k pl => simp only [fernetEncrypt] at hk ⊢; simp_all
  · simp only [hk, if_false, ite_false] at h
    split at h <;> simp_all

end Security

/-- C6 (amended): decrypting a container carrying a verification tag with a
wrong password fails with `InvalidPassword` — the failed attempt is recorded
first and the cipher is not run; an underlying cipher authentication failure
is surfaced as the wrapped `DecryptionError` (the `InvalidToken` message is
empty, so the source's message-matching normalization to `InvalidPassword`
does not fire), never as a raw low-level exception; and decrypt never
returns incorrect plaintext. -/
theorem C6_wrong_password_rejection_amended (w w' salt : String)
    (st : Security.RLState) (now : Nat) (ct : Security.FernetToken) (hw : w' ≠ w)
    (hallow : (Security.check_limit "decrypt" now true st).allowed = true) :
    (Security.decrypt_data ct w' salt (some (Security.create_verification_hash w salt)) st now true
      = ⟨Except.error (.invalidPassword "Sandi salah! Password yang Anda masukkan tidak valid."),
         Security.record_attempt "decrypt" false now true
           (Security.check_limit "decrypt" now true st).state, false⟩)
    ∧ (ct.key ≠ (Security.derive_key w salt).1 →
        (Security.decrypt_data ct w salt (some (Security.create_verification_hash w salt))
          st now true).result = Except.error (.decryptionError "Dekripsi gagal: "))
    ∧ (∀ (vh : Option Security.MDigest) (q : String),
        (Security.decrypt_data ct w salt vh st now true).result = Except.ok q →
        ct = Security.fernetEncrypt (Security.derive_key w salt).1 q) := by
  refine ⟨?_, ?_, ?_⟩
  · simp [Security.decrypt_data, hallow, Security.verify_password_wrong hw]
  · intro hk
    simp [Security.decrypt_data, hallow, Security.verify_password_correct,
      Security.decryptCipherPhase, Security.fernetDecrypt, hk,
      Security.containsSub, Security.containsSubAux, Security.toLowerM]
  · intro vh q h
    cases vh with
    | none =>
        simp only [Security.decrypt_data, hallow, Bool.not_true, if_false, ite_false] at h
        exact Security.cipher_phase_ok_inv ct w salt _ now true q h
    | some v =>
        by_cases hv : Security.verify_password w salt v
        · simp only [Security.decrypt_data, hallow, hv, Bool.not_true, Bool.not_false,
            if_false, ite_false] at h
          exact Security.cipher_phase_ok_inv ct w salt _ now true q h
        · simp [Security.decrypt_data, hallow, hv] at h

/-- C6 witness: the amended property at a concrete password pair, salt,
token and fresh table. -/
theorem C6_wrong_password_rejection_amended_witness :
    ("bad" : String) ≠ "pw" ∧
    (Security.check_limit "decrypt" 0 true []).allowed = true ∧
    ((Security.decrypt_data ⟨("x", "y"), "z"⟩ "bad" "SALT"
        (some (Security.create_verification_hash "pw" "SALT")) [] 0 true
      = ⟨Except.error (.invalidPassword "Sandi salah! Password yang Anda masukkan tidak valid."),
         Security.record_attempt "decrypt" false 0 true
           (Security.check_limit "decrypt" 0 true []).state, false⟩)
    ∧ ((⟨("x", "y"), "z"⟩ : Security.FernetToken).key ≠ (Security.derive_key "pw" "SALT").1 →
        (Security.decrypt_data ⟨("x", "y"), "z"⟩ "pw" "SALT"
          (some (Security.create_verification_hash "pw" "SALT"))
          [] 0 true).result = Except.error (.decryptionError "Dekripsi gagal: "))
    ∧ (∀ (vh : Option Security.MDigest) (q : String),
        (Security.decrypt_data ⟨("x", "y"), "z"⟩ "pw" "SALT" vh [] 0 true).result = Except.ok q →
        (⟨("x", "y"), "z"⟩ : Security.FernetToken)
          = Security.fernetEncrypt (Security.derive_key "pw" "SALT").1 q)) :=
  ⟨by decide, by decide,
    C6_wrong_password_rejection_amended "pw" "bad" "SALT" [] 0 ⟨("x", "y"), "z"⟩
      (by decide) (by decide)⟩

/-! ## C10: fail-open rate limiter -/

/-- C10: when the persistent store raises, `check_limit` returns
`allowed = true` with zero recorded attempts and an unchanged table,
`record_attempt` swallows the failure leaving the table unchanged, and a
`decrypt_data` call with the store unavailable is never rate-limited
(the limiter fails open). -/
theorem C10_rate_limiter_fails_open (key : String) (now : Nat)
    (st : Security.RLState) :
    Security.check_limit key now false st
      = { allowed := true, current_attempts := 0, remaining := Security.maxAttempts,
          wait_time := 0, state := st }
    ∧ (∀ succ : Bool, Security.record_attempt key succ now false st = st)
    ∧ (∀ (ct : Security.FernetToken) (pw salt : String) (vh : Option Security.MDigest),
        Security.isRateLimited (Security.decrypt_data ct pw salt vh st now false).result = false) := by
  refine ⟨by simp [Security.check_limit], fun succ => by simp [Security.record_attempt], ?_⟩
  intro ct pw salt vh
  have hallow : (Security.check_limit "decrypt" now false st).allowed = true := by
    simp [Security.check_limit]
  have hphase : ∀ stc : Security.RLState,
      Security.isRateLimited (Security.decryptCipherPhase ct pw salt stc now false).result
        = false := by
    intro stc
    unfold Security.decryptCipherPhase
    cases hfd : Security.fernetDecrypt (Security.derive_key pw salt).1 ct with
    | ok p => simp [hfd, Security.isRateLimited]
    | error e =>
        simp only [hfd]
        split <;> simp [Security.isRateLimited]
  cases vh with
  | none =>
      simp only [Security.decrypt_data, hallow, Bool.not_true, if_false, ite_false]
      exact hphase _
  | some v =>
      by_cases hv : Security.verify_password pw salt v
      · simp only [Security.decrypt_data, hallow, hv, Bool.not_true, Bool.not_false,
          if_false, ite_false]
        exact hphase _
      · simp [Security.decrypt_data, hallow, hv, Security.isRateLimited]

/-! ## C7: audit tamper detection -/

namespace Integrity

theorem eventData_ne_action {a a' f d u : String} (h : a' ≠ a) :
    eventData a' f d u ≠ eventData a f d u := by
  intro heq
  unfold eventData at heq
  apply h
  exact string_append_right_cancel (string_append_right_cancel
    (string_append_right_cancel (string_append_right_cancel
      (string_append_right_cancel (string_append_right_cancel heq)))))

theorem eventData_ne_path {a f f' d u : String} (h : f' ≠ f) :
    eventData a f' d u ≠ eventData a f d u := by
  intro heq
  unfold eventData at heq
  apply h
  exact string_append_left_cancel (string_append_right_cancel
    (string_append_right_cancel (string_append_right_cancel
      (string_append_right_cancel heq))))

theorem eventData_ne_details {a f d d' u : String} (h : d' ≠ d) :
    eventData a f d' u ≠ eventData a f d u := by
  intro heq
  unfold eventData at heq
  apply h
  exact string_append_left_cancel (string_append_right_cancel
    (string_append_right_cancel heq))

theorem eventData_ne_user {a f d u u' : String} (h : u' ≠ u) :
    eventData a f d u' ≠ eventData a f d u := by
  intro heq
  unfold eventData at heq
  apply h
  exact string_append_left_cancel heq

theorem classifyEntry_tampered_of_mut (e e' : AuditLogEntry)
    (hvalid : classifyEntry e = .valid)
    (hcut : strLtB e.timestamp cutoverDate = false)
    (hck : e'.checksum = e.checksum)
    (hts : e'.timestamp = e.timestamp)
    (hmut : eventData e'.action_type e'.file_path e'.details e'.user
          ≠ eventData e.action_type e.file_path e.details e.user) :
    classifyEntry e' = .tampered := by
  rcases hc : e.checksum with _ | c
  · rw [classifyEntry, hc] at hvalid
    simp at hvalid
  · have hcv : c = calculate_checksum (eventData e.action_type e.file_path e.details e.user) := by
      rw [classifyEntry, hc] at hvalid
      by_cases hcc : c = calculate_checksum (eventData e.action_type e.file_path e.details e.user)
      · exact hcc
      · simp only [hcc, if_false, ite_false] at hvalid
        split at hvalid <;> simp_all
    rw [classifyEntry, hck, hc]
    have hne : c ≠ calculate_checksum (eventData e'.action_type e'.file_path e'.details e'.user) := by
      rw [hcv]
      intro hcontra
      exact hmut (congrArg Checksum.pre hcontra).symm
    simp only [hne, if_false, ite_false, hts, hcut, Bool.and_false, Bool.false_eq_true]

end Integrity

/-- C7 counterexample: the claim says mutating *any one* field of a
post-cutover entry increases `tampered` by exactly 1 and makes
`integrity_valid` false.  But the checksum deliberately excludes the
timestamp, so an entry whose timestamp alone is mutated still verifies:
`tampered` stays 0 and `integrity_valid` stays true. -/
theorem C7_counterexample :
    Integrity.classifyEntry
      { id := 1, timestamp := "2026-01-05T10:00:00", action_type := "file_encrypted",
        user := "root", file_path := "/tmp/a", details := "d", severity := "info",
        checksum := some (Integrity.calculate_checksum
          (Integrity.eventData "file_encrypted" "/tmp/a" "d" "root")) }
      = .valid
    ∧ Integrity.verify_audit_log_integrity
      [{ id := 1, timestamp := "2026-02-09T00:00:00", action_type := "file_encrypted",
         user := "root", file_path := "/tmp/a", details := "d", severity := "info",
         checksum := some (Integrity.calculate_checksum
           (Integrity.eventData "file_encrypted" "/tmp/a" "d" "root")) }]
      = { total_logs := 1, valid := 1, tampered := 0, legacy := 0, integrity_valid := true } := by
  exact ⟨by decide, by decide⟩

/-- C7 (amended): mutating any one of the *checksummed* fields
(`action_type`, `file_path`, `details`, `user`) of a valid post-cutover
entry — keeping the stored checksum and timestamp — increases `tampered` by
exactly 1 and makes `integrity_valid` false; entries without a checksum are
always classified legacy and never count as tampered; and the per-entry
checksum written by `log_audit_event` is the truncated hash of
`action_type|file_path|details|user`, independent of the timestamp. -/
theorem C7_audit_tamper_detection_amended (pre post : List Integrity.AuditLogEntry)
    (e e' : Integrity.AuditLogEntry)
    (hvalid : Integrity.classifyEntry e = .valid)
    (hcut : Integrity.strLtB e.timestamp Integrity.cutoverDate = false)
    (hck : e'.checksum = e.checksum)
    (hts : e'.timestamp = e.timestamp)
    (hmut : (e'.action_type ≠ e.action_type ∧ e'.file_path = e.file_path
              ∧ e'.details = e.details ∧ e'.user = e.user)
          ∨ (e'.action_type = e.action_type ∧ e'.file_path ≠ e.file_path
              ∧ e'.details = e.details ∧ e'.user = e.user)
          ∨ (e'.action_type = e.action_type ∧ e'.file_path = e.file_path
              ∧ e'.details ≠ e.details ∧ e'.user = e.user)
          ∨ (e'.action_type = e.action_type ∧ e'.file_path = e.file_path
              ∧ e'.details = e.details ∧ e'.user ≠ e.user)) :
    (Integrity.verify_audit_log_integrity (pre ++ e' :: post)).tampered
      = (Integrity.verify_audit_log_integrity (pre ++ e :: post)).tampered + 1
    ∧ (Integrity.verify_audit_log_integrity (pre ++ e' :: post)).integrity_valid = false
    ∧ (∀ x : Integrity.AuditLogEntry, x.checksum = none →
        Integrity.classifyEntry x = .legacy)
    ∧ (∀ x : Integrity.AuditLogEntry, x.checksum = none ∨
        (x.timestamp ≠ "" ∧ Integrity.strLtB x.timestamp Integrity.cutoverDate = true) →
        Integrity.classifyEntry x ≠ .tampered)
    ∧ (∀ (i : Nat) (ts a f d u sev : String),
        (Integrity.log_audit_event i ts a f d u sev).checksum
          = some (Integrity.calculate_checksum (Integrity.eventData a f d u))) := by
  have hmutED : Integrity.eventData e'.action_type e'.file_path e'.details e'.user
      ≠ Integrity.eventData e.action_type e.file_path e.details e.user := by
    rcases hmut with ⟨h1, h2, h3, h4⟩ | ⟨h1, h2, h3, h4⟩ | ⟨h1, h2, h3, h4⟩ | ⟨h1, h2, h3, h4⟩
    · rw [h2, h3, h4]; exact Integrity.eventData_ne_action h1
    · rw [h1, h3, h4]; exact Integrity.eventData_ne_path h2
    · rw [h1, h2, h4]; exact Integrity.eventData_ne_details h3
    · rw [h1, h2, h3]; exact Integrity.eventData_ne_user h4
  have htamp := Integrity.classifyEntry_tampered_of_mut e e' hvalid hcut hck hts hmutED
  refine ⟨?_, ?_, ?_, ?_, ?_⟩
  · simp only [Integrity.verify_audit_log_integrity, List.countP_append, List.countP_cons,
      htamp, hvalid]
    simp
    omega
  · simp [Integrity.verify_audit_log_integrity, List.countP_append, List.countP_cons,
      htamp]
  · intro x hx
    simp [Integrity.classifyEntry, hx]
  · intro x hx
    rcases hx with hnone | ⟨hne, hlt⟩
    · simp [Integrity.classifyEntry, hnone]
    · rcases hc : x.checksum with _ | c
      · simp [Integrity.classifyEntry, hc]
      · rw [Integrity.classifyEntry, hc]
        by_cases hcc : c = Integrity.calculate_checksum
            (Integrity.eventData x.action_type x.file_path x.details x.user)
        · simp [hcc]
        · simp [hcc, hne, hlt]
  · intro i ts a f d u sev
    rfl

/-- C7 witness: a concrete valid post-cutover entry whose `details` field is
mutated is counted as exactly one more tampered entry and breaks
`integrity_valid`. -/
theorem C7_audit_tamper_detection_amended_witness :
    (Integrity.verify_audit_log_integrity
      [{ id := 1, timestamp := "2026-01-05T10:00:00", action_type := "chmod",
         user := "root", file_path := "/tmp/a", details := "evil", severity := "info",
         checksum := some (Integrity.calculate_checksum
           (Integrity.eventData "chmod" "/tmp/a" "d" "root")) }]).tampered
      = (Integrity.verify_audit_log_integrity
      [{ id := 1, timestamp := "2026-01-05T10:00:00", action_type := "chmod",
         user := "root", file_path := "/tmp/a", details := "d", severity := "info",
         checksum := some (Integrity.calculate_checksum
           (Integrity.eventData "chmod" "/tmp/a" "d" "root")) }]).tampered + 1
    ∧ (Integrity.verify_audit_log_integrity
      [{ id := 1, timestamp := "2026-01-05T10:00:00", action_type := "chmod",
         user := "root", file_path := "/tmp/a", details := "evil", severity := "info",
         checksum := some (Integrity.calculate_checksum
           (Integrity.eventData "chmod" "/tmp/a" "d" "root")) }]).integrity_valid = false :=
  ⟨(C7_audit_tamper_detection_amended [] []
      { id := 1, timestamp := "2026-01-05T10:00:00", action_type := "chmod",
        user := "root", file_path := "/tmp/a", details := "d", severity := "info",
        checksum := some (Integrity.calculate_checksum
          (Integrity.eventData "chmod" "/tmp/a" "d" "root")) }
      { id := 1, timestamp := "2026-01-05T10:00:00", action_type := "chmod",
        user := "root", file_path := "/tmp/a", details := "evil", severity := "info",
        checksum := some (Integrity.calculate_checksum
          (Integrity.eventData "chmod" "/tmp/a" "d" "root")) }
      (by decide) (by decide) (by decide) (by decide) (by decide)).1,
   (C7_audit_tamper_detection_amended [] []
      { id := 1, timestamp := "2026-01-05T10:00:00", action_type := "chmod",
        user := "root", file_path := "/tmp/a", details := "d", severity := "info",
        checksum := some (Integrity.calculate_checksum
          (Integrity.eventData "chmod" "/tmp/a" "d" "root")) }
      { id := 1, timestamp := "2026-01-05T10:00:00", action_type := "chmod",
        user := "root", file_path := "/tmp/a", details := "evil", severity := "info",
        checksum := some (Integrity.calculate_checksum
          (Integrity.eventData "chmod" "/tmp/a" "d" "root")) }
      (by decide) (by decide) (by decide) (by decide) (by decide)).2.1⟩

/-! ## C1: restore path safety -/

namespace Backup

theorem one_le_length_pathToString (p : AbsPath) : 1 ≤ (pathToString p).length := by
  have hslash : ("/" : String).length = 1 := rfl
  cases p with
  | nil => simp [pathToString, hslash]
  | cons c rest =>
      cases rest with
      | nil =>
          have : pathToString [c] = "/" ++ c := rfl
          rw [this, String.length_append, hslash]
          omega
      | cons c2 rest2 =>
          have : pathToString (c :: c2 :: rest2) = "/" ++ c ++ pathToString (c2 :: rest2) := rfl
          rw [this, String.length_append, String.length_append, hslash]
          omega

theorem length_pathToString_dropLast (p : AbsPath) :
    (pathToString p.dropLast).length ≤ (pathToString p).length := by
  have hslash : ("/" : String).length = 1 := rfl
  induction p with
  | nil => simp
  | cons c rest ih =>
      cases rest with
      | nil =>
          have h1 : ([c] : AbsPath).dropLast = [] := rfl
          have h2 : pathToString [c] = "/" ++ c := rfl
          rw [h1, h2, String.length_append]
          have h3 : (pathToString []).length = 1 := rfl
          omega
      | cons c2 rest2 =>
          have hdl : (c :: c2 :: rest2).dropLast = c :: (c2 :: rest2).dropLast := rfl
          have hstep : pathToString (c :: c2 :: rest2)
              = "/" ++ c ++ pathToString (c2 :: rest2) := rfl
          rw [hdl, hstep]
          cases hd : (c2 :: rest2).dropLast with
          | nil =>
              have h2 : pathToString [c] = "/" ++ c := rfl
              have hpos := one_le_length_pathToString (c2 :: rest2)
              rw [h2, String.length_append, String.length_append, String.length_append,
                hslash]
              omega
          | cons d ds =>
              have h2 : pathToString (c :: d :: ds) = "/" ++ c ++ pathToString (d :: ds) := rfl
              have hih := ih
              rw [hd] at hih
              rw [h2, String.length_append, String.length_append, String.length_append,
                String.length_append, hslash]
              omega

theorem startsWithM_length_le {t pre : String} (h : startsWithM t pre = true) :
    pre.length ≤ t.length := by
  have hp : pre.data <+: t.data := List.isPrefixOf_iff_prefix.mp h
  exact hp.length_le

theorem slipCheck_self_false (dir : AbsPath) : slipCheck dir dir = false := by
  unfold slipCheck
  cases hsc : startsWithM (pathToString dir) (pathToString dir ++ "/") with
  | false => rfl
  | true =>
      exfalso
      have h2 := startsWithM_length_le hsc
      rw [String.length_append] at h2
      have hslash : ("/" : String).length = 1 := rfl
      omega

theorem slipCheck_dropLast_false (dir : AbsPath) : slipCheck dir dir.dropLast = false := by
  unfold slipCheck
  cases hsc : startsWithM (pathToString dir.dropLast) (pathToString dir ++ "/") with
  | false => rfl
  | true =>
      exfalso
      have h2 := startsWithM_length_le hsc
      have h3 := length_pathToString_dropLast dir
      rw [String.length_append] at h2
      have hslash : ("/" : String).length = 1 := rfl
      omega

theorem normJoin_shape_of_check (dir : AbsPath) (f : String)
    (h : slipCheck dir (normJoin dir f) = true) :
    normJoin dir f = dir ++ [f] := by
  unfold normJoin at h ⊢
  by_cases h1 : f = "" ∨ f = "."
  · rw [if_pos h1] at h
    rw [slipCheck_self_false dir] at h
    cases h
  · rw [if_neg h1] at h ⊢
    by_cases h2 : f = ".."
    · rw [if_pos h2] at h
      rw [slipCheck_dropLast_false dir] at h
      cases h
    · rw [if_neg h2]

theorem written_strictly_inside (restoreDir : AbsPath) (archive : String → Option String) :
    ∀ (entries : List ManifestEntry) (t : AbsPath),
      t ∈ (restoreEntries restoreDir archive entries).written →
      restoreDir <+: t ∧ restoreDir.length < t.length := by
  intro entries
  induction entries with
  | nil => intro t ht; simp [restoreEntries] at ht
  | cons e rest ih =>
      intro t ht
      simp only [restoreEntries, List.mem_append] at ht
      rcases ht with h1 | h2
      · unfold restoreOneEntry at h1
        by_cases hc : slipCheck restoreDir (normJoin restoreDir (basename e.path))
        · have hshape := normJoin_shape_of_check restoreDir (basename e.path) hc
          simp only [hc, Bool.not_true, if_false, ite_false] at h1
          have hval : t = restoreDir ++ [basename e.path] := by
            rw [hshape] at h1
            rcases ha : archive (basename e.path) with _ | hh
            · rw [ha] at h1; simp at h1
            · rw [ha] at h1
              simp only [Bool.false_eq_true, if_false, ite_false] at h1
              by_cases hhash : hh ≠ e.hash
              · rw [if_pos hhash] at h1
                simpa using h1
              · rw [if_neg hhash] at h1
                simpa using h1
          rw [hval]
          exact ⟨⟨[basename e.path], rfl⟩, by simp⟩
        · simp only [Bool.not_eq_true] at hc
          simp [hc] at h1
      · exact ih t h2

end Backup

/-- C1: `restore_backup` never writes a file outside the declared restore
root: every filesystem target actually written is strictly inside
`restoreDir` (the root is a proper prefix of its component path); the target
of each manifest entry is the normalized join of the restore directory and
the entry's basename, and an entry whose normalized target fails the
containment check is refused with a path-traversal error while the
remaining entries are still processed. -/
theorem C1_restore_path_safety (restoreDir : Backup.AbsPath)
    (archive : String → Option String) (entries : List Backup.ManifestEntry) :
    (∀ t ∈ (Backup.restoreEntries restoreDir archive entries).written,
        restoreDir <+: t ∧ restoreDir.length < t.length)
    ∧ (∀ (e : Backup.ManifestEntry) (rest : List Backup.ManifestEntry),
        Backup.slipCheck restoreDir
            (Backup.normJoin restoreDir (Backup.basename e.path)) = false →
        Backup.restoreEntries restoreDir archive (e :: rest)
          = { restored := (Backup.restoreEntries restoreDir archive rest).restored,
              errors := ("Blocked path traversal attempt: " ++ Backup.basename e.path)
                :: (Backup.restoreEntries restoreDir archive rest).errors,
              written := (Backup.restoreEntries restoreDir archive rest).written }) := by
  constructor
  · intro t ht
    exact Backup.written_strictly_inside restoreDir archive entries t ht
  · intro e rest hc
    simp [Backup.restoreEntries, Backup.restoreOneEntry, hc]

/-- C1 witness: a concrete restore with a traversal entry (`".."`) and a
good entry: the traversal entry is refused and processing continues, and a
concretely written target is strictly inside the restore root. -/
theorem C1_restore_path_safety_witness :
    Backup.slipCheck ["home", "user", "restore"]
        (Backup.normJoin ["home", "user", "restore"] (Backup.basename "..")) = false
    ∧ (["home", "user", "restore", "ok.txt"] : Backup.AbsPath) ∈
        (Backup.restoreEntries ["home", "user", "restore"]
          (fun n => if n = "ok.txt" then some "h2" else none)
          [⟨"..", "hx", "600"⟩, ⟨"ok.txt", "h2", "600"⟩]).written
    ∧ Backup.restoreEntries ["home", "user", "restore"]
        (fun n => if n = "ok.txt" then some "h2" else none)
        [⟨"..", "hx", "600"⟩, ⟨"ok.txt", "h2", "600"⟩]
      = { restored := (Backup.restoreEntries ["home", "user", "restore"]
            (fun n => if n = "ok.txt" then some "h2" else none)
            [⟨"ok.txt", "h2", "600"⟩]).restored,
          errors := ("Blocked path traversal attempt: " ++ Backup.basename "..")
            :: (Backup.restoreEntries ["home", "user", "restore"]
              (fun n => if n = "ok.txt" then some "h2" else none)
              [⟨"ok.txt", "h2", "600"⟩]).errors,
          written := (Backup.restoreEntries ["home", "user", "restore"]
            (fun n => if n = "ok.txt" then some "h2" else none)
            [⟨"ok.txt", "h2", "600"⟩]).written }
    ∧ ((["home", "user", "restore"] : Backup.AbsPath)
        <+: ["home", "user", "restore", "ok.txt"]
      ∧ (["home", "user", "restore"] : Backup.AbsPath).length
        < (["home", "user", "restore", "ok.txt"] : Backup.AbsPath).length) :=
  ⟨by decide, by decide,
   (C1_restore_path_safety ["home", "user", "restore"]
      (fun n => if n = "ok.txt" then some "h2" else none)
      [⟨"..", "hx", "600"⟩, ⟨"ok.txt", "h2", "600"⟩]).2
      ⟨"..", "hx", "600"⟩ [⟨"ok.txt", "h2", "600"⟩] (by decide),
   (C1_restore_path_safety ["home", "user", "restore"]
      (fun n => if n = "ok.txt" then some "h2" else none)
      [⟨"..", "hx", "600"⟩, ⟨"ok.txt", "h2", "600"⟩]).1
      ["home", "user", "restore", "ok.txt"] (by decide)⟩

/-! ## C9: large-file handling in the encryption worker -/

/-- C9 counterexample: a 500 MiB + 1 byte file is *not* rejected up front —
`_encrypt_file` reads it in full, encrypts it and returns success (only a
progress warning is emitted above the 100 MB threshold).  There is no
500 MiB hard cap in the code. -/
theorem C9_counterexample :
    (EncMgr.encrypt_file false (500 * 1024 * 1024 + 1) "data" "pw" "SALT").result = true
    ∧ (EncMgr.encrypt_file false (500 * 1024 * 1024 + 1) "data" "pw" "SALT").bytesRead
        = 500 * 1024 * 1024 + 1
    ∧ ((EncMgr.encrypt_file false (500 * 1024 * 1024 + 1) "data" "pw" "SALT").layout).isSome
        = true :=
  ⟨rfl, rfl, rfl⟩

/-- C9 (amended): a non-symlink file larger than the 100 MB
`MAX_FILE_SIZE` threshold triggers the large-file warning but is still read
in full and encrypted, with the container written as
`salt || verification_hash || ciphertext`; no file size causes an up-front
rejection. -/
theorem C9_large_file_warning_amended (sz : Nat) (content pw saltDraw : String)
    (h : EncMgr.MAX_FILE_SIZE < sz) :
    (EncMgr.encrypt_file false sz content pw saltDraw).warned = true
    ∧ (EncMgr.encrypt_file false sz content pw saltDraw).result = true
    ∧ (EncMgr.encrypt_file false sz content pw saltDraw).bytesRead = sz
    ∧ (EncMgr.encrypt_file false sz content pw saltDraw).layout
        = some { salt := saltDraw,
                 verification_tag := some (Security.create_verification_hash pw saltDraw),
                 ciphertext := Security.fernetEncrypt (Security.derive_key pw saltDraw).1 content } := by
  refine ⟨?_, rfl, rfl, rfl⟩
  simp [EncMgr.encrypt_file, h]

/-- C9 witness: the amended property at the concrete size 500 MiB + 1. -/
theorem C9_large_file_warning_amended_witness :
    EncMgr.MAX_FILE_SIZE < 500 * 1024 * 1024 + 1 ∧
    ((EncMgr.encrypt_file false (500 * 1024 * 1024 + 1) "abc" "pw" "SALT").warned = true
    ∧ (EncMgr.encrypt_file false (500 * 1024 * 1024 + 1) "abc" "pw" "SALT").result = true
    ∧ (EncMgr.encrypt_file false (500 * 1024 * 1024 + 1) "abc" "pw" "SALT").bytesRead
        = 500 * 1024 * 1024 + 1
    ∧ (EncMgr.encrypt_file false (500 * 1024 * 1024 + 1) "abc" "pw" "SALT").layout
        = some { salt := "SALT",
                 verification_tag := some (Security.create_verification_hash "pw" "SALT"),
                 ciphertext := Security.fernetEncrypt (Security.derive_key "pw" "SALT").1 "abc" }) :=
  ⟨by decide, C9_large_file_warning_amended (500 * 1024 * 1024 + 1) "abc" "pw" "SALT" (by decide)⟩

/-! ## C3: the Encrypt step and the encrypted-artifact layout -/

/-- C3: evidence of the code bug.  Running the pipeline with encryption
enabled and a password over one existing file: the Encrypt step is handed
`data.get('backup_path')` of the *HashBefore* step result (which has no such
key), so it reports "Encryption skipped (not configured)" and encrypts
nothing, while the run still succeeds; and even when `_step_encrypt` is
handed a real backup path, the container it writes is
`salt || ciphertext` with no 32-byte verification tag (the spec's layout is
`salt(16) || verificationTag(32) || ciphertext`). -/
theorem C3_encrypt_step_bug :
    ((Pipeline.execute ⟨true, some "pw"⟩
        { files := fun p => if p = "/a"
            then ⟨true, 0o777, some "h", true, false, false, false⟩
            else ⟨false, 0, none, false, false, false, false⟩,
          chmodOk := fun _ => true }
        [⟨"/a", some 0o644, "high"⟩] none "backups/b1.json" true
        (fun _ => "artifactbytes") "SALT"
        (fun p => if p = "/a" then some "h" else none)).1.completed_steps[3]?
      = some { step := .encrypt, success := true,
               message := "Encryption skipped (not configured)",
               encryptedFlag := some false })
    ∧ (Pipeline.execute ⟨true, some "pw"⟩
        { files := fun p => if p = "/a"
            then ⟨true, 0o777, some "h", true, false, false, false⟩
            else ⟨false, 0, none, false, false, false, false⟩,
          chmodOk := fun _ => true }
        [⟨"/a", some 0o644, "high"⟩] none "backups/b1.json" true
        (fun _ => "artifactbytes") "SALT"
        (fun p => if p = "/a" then some "h" else none)).1.success = true
    ∧ (Pipeline.step_encrypt true "pw" "SALT" (some "backups/b1.json")
        (fun _ => "artifactbytes")).encLayout
      = some { salt := "SALT", verification_tag := none,
               ciphertext := Security.fernetEncrypt
                 (Security.derive_key "pw" "SALT").1 "artifactbytes" } :=
  ⟨by decide, by decide, rfl⟩

/-! ## Pipeline helper lemmas (for C4 and C8) -/

namespace Pipeline

theorem updMode_files_self (fs : FS) (p : String) (m : Nat) :
    (updMode fs p m).files p = { fs.files p with mode := m } := by
  simp [updMode]

theorem updMode_files_ne (fs : FS) (p : String) (m : Nat) {q : String} (h : q ≠ p) :
    (updMode fs p m).files q = fs.files q := by
  simp [updMode, h]

theorem updMode_chmodOk (fs : FS) (p : String) (m : Nat) :
    (updMode fs p m).chmodOk = fs.chmodOk := rfl

theorem FileSt_mode_eta (f : FileSt) : { f with mode := f.mode } = f := by
  cases f
  rfl

theorem FileSt_mode_set_set (x : FileSt) (m : Nat) :
    ({ { x with mode := m } with mode := x.mode }) = x := by
  cases x
  rfl

theorem updMode_comm (fs : FS) {p q : String} (m m' : Nat) (h : q ≠ p) :
    updMode (updMode fs p m) q m' = updMode (updMode fs q m') p m := by
  unfold updMode
  congr 1
  funext r
  by_cases hrq : r = q <;> by_cases hrp : r = p <;> simp_all

theorem changeOne_chmodOk (fs : FS) (custom : Option Nat) (f : FileData) :
    (changeOne fs custom f).2.chmodOk = fs.chmodOk := by
  unfold changeOne
  split
  · rfl
  · split <;> rfl

theorem changeOne_files_ne (fs : FS) (custom : Option Nat) (f : FileData)
    {q : String} (h : q ≠ f.path) :
    ((changeOne fs custom f).2).files q = fs.files q := by
  unfold changeOne
  split
  · rfl
  · split
    · exact updMode_files_ne fs f.path _ h
    · rfl

theorem changeFold_chmodOk (custom : Option Nat) :
    ∀ (l : List FileData) (fs : FS),
      (changeFold fs custom l).2.2.2.chmodOk = fs.chmodOk := by
  intro l
  induction l with
  | nil => intro fs; rfl
  | cons f rest ih =>
      intro fs
      simp only [changeFold]
      split <;> simp [ih, changeOne_chmodOk]

theorem changeFold_files_not_touched (custom : Option Nat) :
    ∀ (l : List FileData) (fs : FS) (q : String), q ∉ l.map (·.path) →
      ((changeFold fs custom l).2.2.2).files q = fs.files q := by
  intro l
  induction l with
  | nil => intro fs q _; rfl
  | cons f rest ih =>
      intro fs q hq
      simp only [List.map_cons, List.mem_cons, not_or] at hq
      simp only [changeFold]
      split <;>
        exact (ih (changeOne fs custom f).2 q hq.2).trans
          (changeOne_files_ne fs custom f hq.1)

theorem changeFold_changed_paths (custom : Option Nat) :
    ∀ (l : List FileData) (fs : FS) (c : ChangedFile),
      c ∈ (changeFold fs custom l).1 → c.path ∈ l.map (·.path) := by
  intro l
  induction l with
  | nil => intro fs c hc; simp [changeFold] at hc
  | cons f rest ih =>
      intro fs c hc
      simp only [changeFold] at hc
      simp only [List.map_cons, List.mem_cons]
      rcases hone : (changeOne fs custom f).1 with _ | c0
      · rw [hone] at hc
        simp only [] at hc
        exact Or.inr (ih _ c hc)
      · rw [hone] at hc
        simp only [List.mem_cons] at hc
        rcases hc with hc | hc
        · left
          have : c0.path = f.path := by
            unfold changeOne at hone
            split at hone
            · cases hone
            · split at hone
              · cases hone; rfl
              · cases hone
          rw [hc, this]
        · exact Or.inr (ih _ c hc)

end Pipeline

namespace Pipeline

theorem restoreChanged_chmodOk : ∀ (cs : List ChangedFile) (fs : FS),
    (restoreChanged cs fs).chmodOk = fs.chmodOk := by
  intro cs
  induction cs with
  | nil => intro fs; rfl
  | cons c cs ih =>
      intro fs
      simp only [restoreChanged, List.foldl_cons]
      have h := ih (if (fs.files c.path).present && fs.chmodOk c.path then
        updMode fs c.path c.old_mode else fs)
      simp only [restoreChanged] at h
      rw [h]
      split <;> rfl

theorem restoreChanged_files_outside (q : String) : ∀ (cs : List ChangedFile) (fs : FS),
    q ∉ cs.map (·.path) → (restoreChanged cs fs).files q = fs.files q := by
  intro cs
  induction cs with
  | nil => intro fs _; rfl
  | cons c cs ih =>
      intro fs hq
      simp only [List.map_cons, List.mem_cons, not_or] at hq
      simp only [restoreChanged, List.foldl_cons]
      have h := ih (if (fs.files c.path).present && fs.chmodOk c.path then
        updMode fs c.path c.old_mode else fs) hq.2
      simp only [restoreChanged] at h
      rw [h]
      split
      · exact updMode_files_ne fs c.path _ hq.1
      · rfl

theorem restoreChanged_updMode_comm (p : String) (m : Nat) :
    ∀ (cs : List ChangedFile) (fs : FS), p ∉ cs.map (·.path) →
      restoreChanged cs (updMode fs p m) = updMode (restoreChanged cs fs) p m := by
  intro cs
  induction cs with
  | nil => intro fs _; rfl
  | cons c cs ih =>
      intro fs hp
      simp only [List.map_cons, List.mem_cons, not_or] at hp
      have hcp : c.path ≠ p := fun h => hp.1 h.symm
      simp only [restoreChanged, List.foldl_cons]
      have hfiles : ((updMode fs p m).files c.path) = fs.files c.path :=
        updMode_files_ne fs p m hcp
      have hchm : (updMode fs p m).chmodOk = fs.chmodOk := rfl
      by_cases hcond : ((fs.files c.path).present && fs.chmodOk c.path) = true
      · rw [show (((updMode fs p m).files c.path).present
            && (updMode fs p m).chmodOk c.path) = true by rw [hfiles, hchm]; exact hcond]
        rw [if_pos hcond]
        rw [updMode_comm fs m c.old_mode hcp]
        have h := ih (updMode fs c.path c.old_mode) hp.2
        simp only [restoreChanged] at h ⊢
        exact h
      · rw [show (((updMode fs p m).files c.path).present
            && (updMode fs p m).chmodOk c.path) = ((fs.files c.path).present
            && fs.chmodOk c.path) by rw [hfiles, hchm]]
        rw [if_neg hcond, if_neg hcond]
        have h := ih fs hp.2
        simp only [restoreChanged] at h ⊢
        exact h

theorem changeFold_restore (custom : Option Nat) :
    ∀ (l : List FileData) (fs : FS), (l.map (·.path)).Nodup →
      ∀ q, (restoreChanged (changeFold fs custom l).1
             (changeFold fs custom l).2.2.2).files q = fs.files q := by
  intro l
  induction l with
  | nil => intro fs _ q; rfl
  | cons f rest ih =>
      intro fs hnd q
      rw [List.map_cons] at hnd
      have hnc := List.nodup_cons.mp hnd
      have hpni : f.path ∉ rest.map (·.path) := hnc.1
      have hnd2 : (rest.map (·.path)).Nodup := hnc.2
      simp only [changeFold]
      by_cases hpres : (fs.files f.path).present = true
      · by_cases hok : fs.chmodOk f.path = true
        · have hco : changeOne fs custom f
              = (some ⟨f.path, (fs.files f.path).mode, chosenMode fs custom f⟩,
                 updMode fs f.path (chosenMode fs custom f)) := by
            unfold changeOne
            rw [if_neg (by simp [hpres]), if_pos hok]
          rw [hco]
          have hsubp : f.path ∉ ((changeFold (updMode fs f.path (chosenMode fs custom f))
              custom rest).1.map (·.path)) := by
            intro hmem
            simp only [List.mem_map] at hmem
            rcases hmem with ⟨c, hc, hcp⟩
            exact hpni (by
              have := changeFold_changed_paths custom rest _ c hc
              rw [hcp] at this
              exact this)
          have hEfiles : (changeFold (updMode fs f.path (chosenMode fs custom f))
              custom rest).2.2.2.files f.path
              = { fs.files f.path with mode := chosenMode fs custom f } := by
            rw [changeFold_files_not_touched custom rest _ f.path hpni]
            exact updMode_files_self fs f.path _
          have hEchm : (changeFold (updMode fs f.path (chosenMode fs custom f))
              custom rest).2.2.2.chmodOk = fs.chmodOk := by
            rw [changeFold_chmodOk]
            rfl
          -- the first rollback step fires and restores f.path
          have hstep : restoreChanged
              (⟨f.path, (fs.files f.path).mode, chosenMode fs custom f⟩
                :: (changeFold (updMode fs f.path (chosenMode fs custom f)) custom rest).1)
              ((changeFold (updMode fs f.path (chosenMode fs custom f)) custom rest).2.2.2)
              = updMode (restoreChanged
                  (changeFold (updMode fs f.path (chosenMode fs custom f)) custom rest).1
                  ((changeFold (updMode fs f.path (chosenMode fs custom f)) custom rest).2.2.2))
                f.path (fs.files f.path).mode := by
            simp only [restoreChanged, List.foldl_cons]
            rw [if_pos (by rw [hEfiles, hEchm]; simp [hpres, hok])]
            have h := restoreChanged_updMode_comm f.path (fs.files f.path).mode
              (changeFold (updMode fs f.path (chosenMode fs custom f)) custom rest).1
              ((changeFold (updMode fs f.path (chosenMode fs custom f)) custom rest).2.2.2)
              hsubp
            simp only [restoreChanged] at h ⊢
            exact h
          rw [hstep]
          by_cases hq : q = f.path
          · rw [hq, updMode_files_self,
              restoreChanged_files_outside f.path _ _ hsubp,
              changeFold_files_not_touched custom rest _ f.path hpni,
              updMode_files_self, FileSt_mode_set_set (fs.files f.path)]
          · rw [updMode_files_ne _ _ _ hq]
            have hihq := ih (updMode fs f.path (chosenMode fs custom f)) hnd2 q
            rw [hihq]
            exact updMode_files_ne fs f.path _ hq
        · have hco : changeOne fs custom f = (none, fs) := by
            unfold changeOne
            rw [if_neg (by simp [hpres]), if_neg hok]
          rw [hco]
          exact ih fs hnd2 q
      · have hco : changeOne fs custom f = (none, fs) := by
          unfold changeOne
          rw [if_pos (by simp [Bool.not_eq_true] at hpres ⊢; exact hpres)]
        rw [hco]
        exact ih fs hnd2 q

end Pipeline

namespace Pipeline

theorem step_scan_success_of (fs : FS) (l : List FileData)
    (h : ∀ f ∈ l, (fs.files f.path).present = true) :
    (step_scan fs l).success = true := by
  unfold step_scan
  have hnil : (l.map (·.path)).filter (fun p => !(fs.files p).present) = [] := by
    rw [List.filter_eq_nil_iff]
    intro p hp
    simp only [List.mem_map] at hp
    rcases hp with ⟨f, hf, rfl⟩
    simp [h f hf]
  simp [hnil]

theorem step_scan_step (fs : FS) (l : List FileData) : (step_scan fs l).step = .scan := by
  unfold step_scan
  dsimp only
  split <;> rfl

theorem step_encrypt_success (a : Bool) (pw salt : String) (bp : Option String)
    (rc : String → String) : (step_encrypt a pw salt bp rc).success = true := by
  unfold step_encrypt
  cases bp <;> cases a <;> rfl

theorem step_encrypt_step (a : Bool) (pw salt : String) (bp : Option String)
    (rc : String → String) : (step_encrypt a pw salt bp rc).step = .encrypt := by
  unfold step_encrypt
  cases bp <;> cases a <;> rfl

theorem step_change_fields (fs : FS) (l : List FileData) (custom : Option Nat) :
    (step_change_permission fs l custom).1.step = .change_permission
    ∧ (step_change_permission fs l custom).1.changed_files = (changeFold fs custom l).1
    ∧ (step_change_permission fs l custom).1.failed_count = (changeFold fs custom l).2.2.1
    ∧ (step_change_permission fs l custom).1.success_count = (changeFold fs custom l).2.1
    ∧ (step_change_permission fs l custom).2 = (changeFold fs custom l).2.2.2 := by
  unfold step_change_permission
  dsimp only
  split <;> exact ⟨rfl, rfl, rfl, rfl, rfl⟩

theorem step_change_success_iff (fs : FS) (l : List FileData) (custom : Option Nat) :
    (step_change_permission fs l custom).1.success = true
      ↔ 2 * (changeFold fs custom l).2.2.1 ≤ l.length := by
  unfold step_change_permission
  dsimp only
  split
  · rename_i h
    simp only []
    constructor
    · intro hfalse; cases hfalse
    · intro hle; omega
  · rename_i h
    simp only []
    constructor
    · intro _; omega
    · intro _; trivial

theorem step_hash_after_fail_of_corrupt (fs : FS) (l : List FileData)
    (hb : List (String × String)) (h6 : String → Option String)
    (h : hashAfterCorrupted hb h6 l ≠ []) :
    (step_hash_after fs l hb h6).success = false := by
  unfold step_hash_after
  dsimp only
  rw [if_pos h]

theorem step_hash_after_step (fs : FS) (l : List FileData)
    (hb : List (String × String)) (h6 : String → Option String) :
    (step_hash_after fs l hb h6).step = .hash_after := by
  unfold step_hash_after
  dsimp only
  split
  · rfl
  · split <;> rfl

theorem rollback_step_of_scan (fs : FS) (sr : StepRes) (h : sr.step = .scan) :
    rollback_step fs sr = (⟨.scan, true, "No rollback needed"⟩, fs) := by
  unfold rollback_step
  rw [h]

theorem rollback_step_of_hash_before (fs : FS) (sr : StepRes) (h : sr.step = .hash_before) :
    rollback_step fs sr = (⟨.hash_before, true, "No rollback needed"⟩, fs) := by
  unfold rollback_step
  rw [h]

theorem rollback_step_of_backup (fs : FS) (sr : StepRes) (h : sr.step = .backup) :
    rollback_step fs sr = (⟨.backup, true, "Backup preserved for reference"⟩, fs) := by
  unfold rollback_step
  rw [h]

theorem rollback_step_of_encrypt (fs : FS) (sr : StepRes) (h : sr.step = .encrypt) :
    rollback_step fs sr = (⟨.encrypt, true, "Removed encrypted backup"⟩, fs) := by
  unfold rollback_step
  rw [h]

theorem rollback_step_of_change (fs : FS) (sr : StepRes) (h : sr.step = .change_permission) :
    rollback_step fs sr
      = (⟨.change_permission, true,
          "Restored " ++ toString sr.changed_files.length ++ " file permissions"⟩,
         restoreChanged sr.changed_files fs) := by
  unfold rollback_step
  rw [h]

end Pipeline

namespace Pipeline

theorem rollback_step_keeps_step (fs : FS) (sr : StepRes) :
    (rollback_step fs sr).1.step = sr.step := by
  unfold rollback_step
  split <;> simp_all

theorem rollback_step_fs_of_ne (fs : FS) (sr : StepRes)
    (h : sr.step ≠ .change_permission) : (rollback_step fs sr).2 = fs := by
  unfold rollback_step
  split <;> simp_all

theorem rollbackGo_map_step : ∀ (l : List StepRes) (fs : FS),
    (rollbackGo fs l).1.map (·.step) = l.map (·.step) := by
  intro l
  induction l with
  | nil => intro fs; rfl
  | cons sr rest ih =>
      intro fs
      simp only [rollbackGo, List.map_cons]
      rw [rollback_step_keeps_step, ih]

theorem rollbackGo_fs_no_change : ∀ (l : List StepRes) (fs : FS),
    (∀ sr ∈ l, sr.step ≠ .change_permission) → (rollbackGo fs l).2 = fs := by
  intro l
  induction l with
  | nil => intro fs _; rfl
  | cons sr rest ih =>
      intro fs h
      simp only [rollbackGo]
      rw [rollback_step_fs_of_ne fs sr (h sr (List.mem_cons_self sr rest))]
      exact ih fs (fun x hx => h x (List.mem_cons_of_mem sr hx))

theorem rollback_map_step (fs : FS) (stack : List StepRes) :
    ((rollback fs stack).1).map (·.step) = (stack.map (·.step)).reverse := by
  unfold rollback
  rw [rollbackGo_map_step, List.map_reverse]

theorem rollback_fs_change_last (fs : FS) (others : List StepRes) (s5 : StepRes)
    (h5 : s5.step = .change_permission)
    (hothers : ∀ sr ∈ others, sr.step ≠ .change_permission) :
    (rollback fs (others ++ [s5])).2 = restoreChanged s5.changed_files fs := by
  unfold rollback
  rw [List.reverse_append, List.reverse_singleton]
  simp only [List.singleton_append, rollbackGo]
  rw [rollback_step_of_change fs s5 h5]
  exact rollbackGo_fs_no_change others.reverse _
    (fun x hx => hothers x (List.mem_reverse.mp hx))

end Pipeline

namespace Pipeline

theorem executeTail_conclusions (r0 : PipelineResult) (fsIn : FS) (l : List FileData)
    (custom : Option Nat) (h6 : String → Option String)
    (completed stack : List StepRes) (hb : List (String × String))
    (hsucc : (step_change_permission fsIn l custom).1.success = true)
    (hfail : (step_hash_after (step_change_permission fsIn l custom).2 l hb h6).success
      = false) :
    (executeTail r0 fsIn l custom h6 completed stack hb).1.rolled_back = true
    ∧ (executeTail r0 fsIn l custom h6 completed stack hb).1.rollback_results
        = (rollback (step_change_permission fsIn l custom).2
            (stack ++ [(step_change_permission fsIn l custom).1])).1
    ∧ (executeTail r0 fsIn l custom h6 completed stack hb).2
        = (rollback (step_change_permission fsIn l custom).2
            (stack ++ [(step_change_permission fsIn l custom).1])).2 := by
  unfold executeTail
  dsimp only
  simp only [hsucc, hfail, Bool.not_true, Bool.not_false, Bool.false_eq_true,
    Bool.true_eq_false, if_true, if_false, ite_true, ite_false]
  exact ⟨by trivial, by trivial, by trivial⟩

theorem execute_to_tail (cfg : PipeCfg) (fs0 : FS) (l : List FileData)
    (custom : Option Nat) (bp : String) (rc : String → String) (salt : String)
    (h6 : String → Option String)
    (hscan : (step_scan fs0 l).success = true) :
    execute cfg fs0 l custom bp true rc salt h6
      = executeTail
          { success := false, completed_steps := [], failed_step := none,
            rolled_back := false, rollback_results := [], total_files := l.length,
            files_processed := 0 } fs0 l custom h6
          (if cfg.enable_encryption && pwTruthy cfg.encryption_password then
            [step_scan fs0 l, step_backup bp true, step_hash_before fs0 l,
             step_encrypt cfg.enable_encryption (cfg.encryption_password.getD "") salt
               (step_hash_before fs0 l).backup_path rc]
           else [step_scan fs0 l, step_backup bp true, step_hash_before fs0 l])
          (if cfg.enable_encryption && pwTruthy cfg.encryption_password then
            [step_scan fs0 l, step_backup bp true, step_hash_before fs0 l,
             step_encrypt cfg.enable_encryption (cfg.encryption_password.getD "") salt
               (step_hash_before fs0 l).backup_path rc]
           else [step_scan fs0 l, step_backup bp true, step_hash_before fs0 l])
          ((step_hash_before fs0 l).hashes) := by
  by_cases hE : (cfg.enable_encryption && pwTruthy cfg.encryption_password) = true
  · simp only [execute, hscan, hE, step_backup, step_hash_before, step_encrypt_success,
      Bool.not_true, Bool.not_false, Bool.false_eq_true, Bool.true_eq_false,
      if_true, if_false, ite_true, ite_false, List.cons_append, List.nil_append,
      List.singleton_append]
  · have hE2 : (cfg.enable_encryption && pwTruthy cfg.encryption_password) = false := by
      simpa using hE
    simp only [execute, hscan, hE2, step_backup, step_hash_before,
      Bool.not_true, Bool.not_false, Bool.false_eq_true, Bool.true_eq_false,
      if_true, if_false, ite_true, ite_false, List.cons_append, List.nil_append,
      List.singleton_append]

end Pipeline

/-! ## C4 -/

/-- C4: for every pipeline run in which HashAfter fails (corruption detected
after a successful ChangePermission over distinct files), the result has
`rolled_back = true`; every already-completed step's rollback handler is
invoked in reverse order of execution (one rollback record per completed
step, Encrypt included when enabled — a failing handler cannot stop the
loop, each `_rollback_step` body catches its own exceptions); and every
file's state — in particular the permission of every file that was changed —
is restored to its pre-change value. -/
theorem C4_rollback_completeness (cfg : Pipeline.PipeCfg) (fs0 : Pipeline.FS)
    (files_data : List Pipeline.FileData) (custom_mode : Option Nat)
    (bp : String) (rc : String → String) (saltDraw : String)
    (hashAt6 : String → Option String)
    (hpresent : ∀ f ∈ files_data, (fs0.files f.path).present = true)
    (hnodup : (files_data.map (·.path)).Nodup)
    (hchange : 2 * (Pipeline.changeFold fs0 custom_mode files_data).2.2.1
        ≤ files_data.length)
    (hcorrupt : Pipeline.hashAfterCorrupted
        (Pipeline.step_hash_before fs0 files_data).hashes hashAt6 files_data ≠ []) :
    (Pipeline.execute cfg fs0 files_data custom_mode bp true rc saltDraw
        hashAt6).1.rolled_back = true
    ∧ (Pipeline.execute cfg fs0 files_data custom_mode bp true rc saltDraw
        hashAt6).1.rollback_results.map (·.step)
        = ([Pipeline.PStep.scan, Pipeline.PStep.backup, Pipeline.PStep.hash_before]
            ++ (if cfg.enable_encryption && Pipeline.pwTruthy cfg.encryption_password
                then [Pipeline.PStep.encrypt] else [])
            ++ [Pipeline.PStep.change_permission]).reverse
    ∧ ∀ q, (Pipeline.execute cfg fs0 files_data custom_mode bp true rc saltDraw
        hashAt6).2.files q = fs0.files q := by
  have hscan := Pipeline.step_scan_success_of fs0 files_data hpresent
  have hsucc := (Pipeline.step_change_success_iff fs0 files_data custom_mode).mpr hchange
  have hfail := Pipeline.step_hash_after_fail_of_corrupt
    (Pipeline.step_change_permission fs0 files_data custom_mode).2 files_data
    (Pipeline.step_hash_before fs0 files_data).hashes hashAt6 hcorrupt
  have hexec := Pipeline.execute_to_tail cfg fs0 files_data custom_mode bp rc saltDraw
    hashAt6 hscan
  have hcf := Pipeline.step_change_fields fs0 files_data custom_mode
  by_cases hE : (cfg.enable_encryption && Pipeline.pwTruthy cfg.encryption_password) = true
  · simp only [hE, if_true, ite_true] at hexec
    obtain ⟨h1, h2, h3⟩ := Pipeline.executeTail_conclusions
      { success := false, completed_steps := [], failed_step := none,
        rolled_back := false, rollback_results := [], total_files := files_data.length,
        files_processed := 0 } fs0 files_data custom_mode hashAt6
      [Pipeline.step_scan fs0 files_data, Pipeline.step_backup bp true,
       Pipeline.step_hash_before fs0 files_data,
       Pipeline.step_encrypt cfg.enable_encryption (cfg.encryption_password.getD "")
         saltDraw (Pipeline.step_hash_before fs0 files_data).backup_path rc]
      [Pipeline.step_scan fs0 files_data, Pipeline.step_backup bp true,
       Pipeline.step_hash_before fs0 files_data,
       Pipeline.step_encrypt cfg.enable_encryption (cfg.encryption_password.getD "")
         saltDraw (Pipeline.step_hash_before fs0 files_data).backup_path rc]
      ((Pipeline.step_hash_before fs0 files_data).hashes) hsucc hfail
    rw [hexec]
    refine ⟨h1, ?_, ?_⟩
    · rw [h2, Pipeline.rollback_map_step]
      simp only [hE, if_true, ite_true]
      congr 1
      simp only [List.map_append, List.map_cons, List.map_nil,
        Pipeline.step_scan_step, Pipeline.step_encrypt_step, hcf.1]
      simp [Pipeline.step_backup, Pipeline.step_hash_before]
    · intro q
      rw [h3]
      have hnochange : ∀ sr ∈ [Pipeline.step_scan fs0 files_data,
          Pipeline.step_backup bp true, Pipeline.step_hash_before fs0 files_data,
          Pipeline.step_encrypt cfg.enable_encryption (cfg.encryption_password.getD "")
            saltDraw (Pipeline.step_hash_before fs0 files_data).backup_path rc],
          sr.step ≠ Pipeline.PStep.change_permission := by
        intro sr hsr
        simp only [List.mem_cons, List.not_mem_nil, or_false] at hsr
        rcases hsr with rfl | rfl | rfl | rfl
        · rw [Pipeline.step_scan_step]; intro hcon; cases hcon
        · intro hcon
          rw [show (Pipeline.step_backup bp true).step = Pipeline.PStep.backup from rfl] at hcon
          cases hcon
        · intro hcon
          rw [show (Pipeline.step_hash_before fs0 files_data).step
            = Pipeline.PStep.hash_before from rfl] at hcon
          cases hcon
        · rw [Pipeline.step_encrypt_step]; intro hcon; cases hcon
      rw [Pipeline.rollback_fs_change_last _ _ _ hcf.1 hnochange]
      rw [hcf.2.1, hcf.2.2.2.2]
      exact Pipeline.changeFold_restore custom_mode files_data fs0 hnodup q
  · have hE2 : (cfg.enable_encryption && Pipeline.pwTruthy cfg.encryption_password)
        = false := by simpa using hE
    simp only [hE2, Bool.false_eq_true, if_false, ite_false] at hexec
    obtain ⟨h1, h2, h3⟩ := Pipeline.executeTail_conclusions
      { success := false, completed_steps := [], failed_step := none,
        rolled_back := false, rollback_results := [], total_files := files_data.length,
        files_processed := 0 } fs0 files_data custom_mode hashAt6
      [Pipeline.step_scan fs0 files_data, Pipeline.step_backup bp true,
       Pipeline.step_hash_before fs0 files_data]
      [Pipeline.step_scan fs0 files_data, Pipeline.step_backup bp true,
       Pipeline.step_hash_before fs0 files_data]
      ((Pipeline.step_hash_before fs0 files_data).hashes) hsucc hfail
    rw [hexec]
    refine ⟨h1, ?_, ?_⟩
    · rw [h2, Pipeline.rollback_map_step]
      simp only [hE2, if_false, ite_false]
      congr 1
      simp only [List.map_append, List.map_cons, List.map_nil,
        Pipeline.step_scan_step, hcf.1]
      simp [Pipeline.step_backup, Pipeline.step_hash_before]
    · intro q
      rw [h3]
      have hnochange : ∀ sr ∈ [Pipeline.step_scan fs0 files_data,
          Pipeline.step_backup bp true, Pipeline.step_hash_before fs0 files_data],
          sr.step ≠ Pipeline.PStep.change_permission := by
        intro sr hsr
        simp only [List.mem_cons, List.not_mem_nil, or_false] at hsr
        rcases hsr with rfl | rfl | rfl
        · rw [Pipeline.step_scan_step]; intro hcon; cases hcon
        · intro hcon
          rw [show (Pipeline.step_backup bp true).step = Pipeline.PStep.backup from rfl] at hcon
          cases hcon
        · intro hcon
          rw [show (Pipeline.step_hash_before fs0 files_data).step
            = Pipeline.PStep.hash_before from rfl] at hcon
          cases hcon
      rw [Pipeline.rollback_fs_change_last _ _ _ hcf.1 hnochange]
      rw [hcf.2.1, hcf.2.2.2.2]
      exact Pipeline.changeFold_restore custom_mode files_data fs0 hnodup q

/-- C4 witness: a concrete two-file run in which HashAfter detects synthetic
corruption of `/b`: the result is rolled back and `/a` (whose mode had been
changed to 644) is back at its original state. -/
theorem C4_rollback_completeness_witness :
    (Pipeline.execute ⟨false, none⟩
      { files := fun p => if p = "/a" then ⟨true, 511, some "ha", true, false, false, false⟩
          else if p = "/b" then ⟨true, 511, some "hb", true, false, false, false⟩
          else ⟨false, 0, none, false, false, false, false⟩,
        chmodOk := fun _ => true }
      [⟨"/a", some 420, "high"⟩, ⟨"/b", some 420, "high"⟩] none "b.json" true
      (fun _ => "") "S"
      (fun p => if p = "/b" then some "CORRUPT" else if p = "/a" then some "ha" else none)
      ).1.rolled_back = true
    ∧ (Pipeline.execute ⟨false, none⟩
      { files := fun p => if p = "/a" then ⟨true, 511, some "ha", true, false, false, false⟩
          else if p = "/b" then ⟨true, 511, some "hb", true, false, false, false⟩
          else ⟨false, 0, none, false, false, false, false⟩,
        chmodOk := fun _ => true }
      [⟨"/a", some 420, "high"⟩, ⟨"/b", some 420, "high"⟩] none "b.json" true
      (fun _ => "") "S"
      (fun p => if p = "/b" then some "CORRUPT" else if p = "/a" then some "ha" else none)
      ).2.files "/a"
      = (({ files := fun p =>
              if p = "/a" then ⟨true, 511, some "ha", true, false, false, false⟩
              else if p = "/b" then ⟨true, 511, some "hb", true, false, false, false⟩
              else ⟨false, 0, none, false, false, false, false⟩,
            chmodOk := fun _ => true } : Pipeline.FS).files "/a") :=
  ⟨(C4_rollback_completeness ⟨false, none⟩
      { files := fun p => if p = "/a" then ⟨true, 511, some "ha", true, false, false, false⟩
          else if p = "/b" then ⟨true, 511, some "hb", true, false, false, false⟩
          else ⟨false, 0, none, false, false, false, false⟩,
        chmodOk := fun _ => true }
      [⟨"/a", some 420, "high"⟩, ⟨"/b", some 420, "high"⟩] none "b.json"
      (fun _ => "") "S"
      (fun p => if p = "/b" then some "CORRUPT" else if p = "/a" then some "ha" else none)
      (by decide) (by decide) (by decide) (by decide)).1,
   (C4_rollback_completeness ⟨false, none⟩
      { files := fun p => if p = "/a" then ⟨true, 511, some "ha", true, false, false, false⟩
          else if p = "/b" then ⟨true, 511, some "hb", true, false, false, false⟩
          else ⟨false, 0, none, false, false, false, false⟩,
        chmodOk := fun _ => true }
      [⟨"/a", some 420, "high"⟩, ⟨"/b", some 420, "high"⟩] none "b.json"
      (fun _ => "") "S"
      (fun p => if p = "/b" then some "CORRUPT" else if p = "/a" then some "ha" else none)
      (by decide) (by decide) (by decide) (by decide)).2.2 "/a"⟩

/-! ## C8 lemmas -/

namespace Pipeline

theorem updMode_files_present (fs : FS) (p : String) (m : Nat) (q : String) :
    (((updMode fs p m).files q)).present = ((fs.files q)).present := by
  by_cases h : q = p
  · subst h
    rw [updMode_files_self]
  · rw [updMode_files_ne _ _ _ h]

theorem changeOne_preserves_present (fs : FS) (custom : Option Nat) (f : FileData)
    (q : String) :
    (((changeOne fs custom f).2).files q).present = ((fs.files q)).present := by
  unfold changeOne
  split
  · rfl
  · split
    · exact updMode_files_present fs f.path _ q
    · rfl

theorem changeFold_failed_count (custom : Option Nat) :
    ∀ (l : List FileData) (fs : FS),
      (changeFold fs custom l).2.2.1
        = l.countP (fun f => !((fs.files f.path).present && fs.chmodOk f.path)) := by
  intro l
  induction l with
  | nil => intro fs; rfl
  | cons f rest ih =>
      intro fs
      simp only [changeFold, List.countP_cons]
      have hcongr : rest.countP
          (fun g => !(((changeOne fs custom f).2.files g.path).present
            && (changeOne fs custom f).2.chmodOk g.path))
          = rest.countP (fun g => !((fs.files g.path).present && fs.chmodOk g.path)) := by
        apply List.countP_congr
        intro g _
        rw [changeOne_preserves_present, changeOne_chmodOk]
      by_cases hpres : (fs.files f.path).present = true
      · by_cases hok : fs.chmodOk f.path = true
        · have hco : changeOne fs custom f
              = (some ⟨f.path, (fs.files f.path).mode, chosenMode fs custom f⟩,
                 updMode fs f.path (chosenMode fs custom f)) := by
            unfold changeOne
            rw [if_neg (by simp [hpres]), if_pos hok]
          rw [hco]
          have := ih (updMode fs f.path (chosenMode fs custom f))
          simp only [this]
          have hpred : (!((fs.files f.path).present && fs.chmodOk f.path)) = false := by
            simp [hpres, hok]
          rw [hpred]
          simp only [cond_false, Bool.false_eq_true, if_false, ite_false]
          apply List.countP_congr
          intro g _
          rw [updMode_files_present, updMode_chmodOk]
        · have hco : changeOne fs custom f = (none, fs) := by
            unfold changeOne
            rw [if_neg (by simp [hpres]), if_neg hok]
          rw [hco]
          have := ih fs
          simp only [this]
          have hokf : fs.chmodOk f.path = false := by
            cases hcc : fs.chmodOk f.path
            · rfl
            · exact absurd hcc hok
          have hpred : (!((fs.files f.path).present && fs.chmodOk f.path)) = true := by
            simp [hpres, hokf]
          rw [hpred]
          simp
      · have hco : changeOne fs custom f = (none, fs) := by
          unfold changeOne
          rw [if_pos (by simp [Bool.not_eq_true] at hpres ⊢; exact hpres)]
        rw [hco]
        have := ih fs
        simp only [this]
        have hpred : (!((fs.files f.path).present && fs.chmodOk f.path)) = true := by
          simp [Bool.not_eq_true] at hpres
          simp [hpres]
        rw [hpred]
        simp

theorem changeFold_changed_new_of_custom (m : Nat) :
    ∀ (l : List FileData) (fs : FS),
      ∀ c ∈ (changeFold fs (some m) l).1, c.new_mode = m := by
  intro l
  induction l with
  | nil => intro fs c hc; simp [changeFold] at hc
  | cons f rest ih =>
      intro fs c hc
      simp only [changeFold] at hc
      rcases hone : (changeOne fs (some m) f).1 with _ | c0
      · rw [hone] at hc
        exact ih _ c hc
      · rw [hone] at hc
        simp only [List.mem_cons] at hc
        rcases hc with rfl | hc
        · unfold changeOne at hone
          split at hone
          · cases hone
          · split at hone
            · cases hone
              rfl
            · cases hone
        · exact ih _ c hc

theorem changeFold_changed_new_of_expected :
    ∀ (l : List FileData) (fs : FS),
      ∀ c ∈ (changeFold fs none l).1,
        ∃ f ∈ l, f.path = c.path ∧ ∀ em, f.expected = some em → c.new_mode = em := by
  intro l
  induction l with
  | nil => intro fs c hc; simp [changeFold] at hc
  | cons f rest ih =>
      intro fs c hc
      simp only [changeFold] at hc
      rcases hone : (changeOne fs none f).1 with _ | c0
      · rw [hone] at hc
        rcases ih _ c hc with ⟨g, hg, hgp, hge⟩
        exact ⟨g, List.mem_cons_of_mem f hg, hgp, hge⟩
      · rw [hone] at hc
        simp only [List.mem_cons] at hc
        rcases hc with rfl | hc
        · refine ⟨f, List.mem_cons_self f rest, ?_, ?_⟩
          · unfold changeOne at hone
            split at hone
            · cases hone
            · split at hone
              · cases hone; rfl
              · cases hone
          · intro em hem
            unfold changeOne at hone
            split at hone
            · cases hone
            · split at hone
              · cases hone
                unfold chosenMode
                rw [hem]
              · cases hone
        · rcases ih _ c hc with ⟨g, hg, hgp, hge⟩
          exact ⟨g, List.mem_cons_of_mem f hg, hgp, hge⟩

theorem step_hash_after_success_of (fs : FS) (l : List FileData)
    (hb : List (String × String)) (h6 : String → Option String)
    (h1 : hashAfterCorrupted hb h6 l = [])
    (h2 : hashAfterFailedCount fs hb h6 l = 0) :
    (step_hash_after fs l hb h6).success = true := by
  unfold step_hash_after
  dsimp only
  rw [if_neg (by simp [h1]), if_neg (by omega)]

theorem executeTail_success_conclusions (r0 : PipelineResult) (fsIn : FS)
    (l : List FileData) (custom : Option Nat) (h6 : String → Option String)
    (completed stack : List StepRes) (hb : List (String × String))
    (hsucc : (step_change_permission fsIn l custom).1.success = true)
    (hafter : (step_hash_after (step_change_permission fsIn l custom).2 l hb h6).success
      = true) :
    (executeTail r0 fsIn l custom h6 completed stack hb).1.rolled_back = r0.rolled_back
    ∧ (executeTail r0 fsIn l custom h6 completed stack hb).1.success = true := by
  unfold executeTail
  dsimp only
  simp only [hsucc, hafter, Bool.not_true, Bool.false_eq_true, if_false, ite_false]
  exact ⟨by trivial, by trivial⟩

end Pipeline

/-! ## C8 -/

/-- C8: for a non-empty batch, the ChangePermission step applies
`custom_mode` when given and otherwise each record's declared expected mode;
the step is marked failed exactly when strictly more than 50% of the files
fail to change (a file fails when it cannot be stat'ed or chmod'ed); and
with 50% or fewer individual failures the step succeeds and a benign run
(no corruption, files readable) completes without any rollback. -/
theorem C8_change_permission_threshold (fs : Pipeline.FS)
    (files_data : List Pipeline.FileData) (custom_mode : Option Nat)
    (hne : files_data ≠ []) :
    ((Pipeline.step_change_permission fs files_data custom_mode).1.success = false
      ↔ 2 * files_data.countP
            (fun f => !((fs.files f.path).present && fs.chmodOk f.path))
          > files_data.length)
    ∧ (∀ m, custom_mode = some m →
        ∀ c ∈ (Pipeline.step_change_permission fs files_data custom_mode).1.changed_files,
          c.new_mode = m)
    ∧ (custom_mode = none →
        ∀ c ∈ (Pipeline.step_change_permission fs files_data custom_mode).1.changed_files,
          ∃ f ∈ files_data, f.path = c.path ∧
            ∀ em, f.expected = some em → c.new_mode = em)
    ∧ (∀ (cfg : Pipeline.PipeCfg) (bp : String) (rc : String → String) (salt : String)
        (h6 : String → Option String),
        (∀ f ∈ files_data, (fs.files f.path).present = true) →
        2 * files_data.countP
            (fun f => !((fs.files f.path).present && fs.chmodOk f.path))
          ≤ files_data.length →
        Pipeline.hashAfterCorrupted (Pipeline.step_hash_before fs files_data).hashes h6
          files_data = [] →
        Pipeline.hashAfterFailedCount
          (Pipeline.step_change_permission fs files_data custom_mode).2
          (Pipeline.step_hash_before fs files_data).hashes h6 files_data = 0 →
        (Pipeline.execute cfg fs files_data custom_mode bp true rc salt h6).1.rolled_back
          = false
        ∧ (Pipeline.execute cfg fs files_data custom_mode bp true rc salt h6).1.success
          = true) := by
  have hfc := Pipeline.changeFold_failed_count custom_mode files_data fs
  have hiff := Pipeline.step_change_success_iff fs files_data custom_mode
  have hcf := Pipeline.step_change_fields fs files_data custom_mode
  refine ⟨?_, ?_, ?_, ?_⟩
  · have hbool : ((Pipeline.step_change_permission fs files_data custom_mode).1.success
        = false)
        ↔ ¬ ((Pipeline.step_change_permission fs files_data custom_mode).1.success
        = true) := by
      cases hcc : (Pipeline.step_change_permission fs files_data custom_mode).1.success <;>
        simp
    rw [hbool, hiff, ← hfc]
    omega
  · intro m hm c hc
    subst hm
    rw [hcf.2.1] at hc
    exact Pipeline.changeFold_changed_new_of_custom m files_data fs c hc
  · intro hnone c hc
    subst hnone
    rw [hcf.2.1] at hc
    exact Pipeline.changeFold_changed_new_of_expected files_data fs c hc
  · intro cfg bp rc salt h6 hpres hle hc0 hf0
    have hscan := Pipeline.step_scan_success_of fs files_data hpres
    have hsucc := (Pipeline.step_change_success_iff fs files_data custom_mode).mpr
      (by rw [hfc]; exact hle)
    have hafter := Pipeline.step_hash_after_success_of
      (Pipeline.step_change_permission fs files_data custom_mode).2 files_data
      (Pipeline.step_hash_before fs files_data).hashes h6 hc0 hf0
    have hexec := Pipeline.execute_to_tail cfg fs files_data custom_mode bp rc salt h6 hscan
    rw [hexec]
    obtain ⟨ha, hb⟩ := Pipeline.executeTail_success_conclusions
      { success := false, completed_steps := [], failed_step := none,
        rolled_back := false, rollback_results := [], total_files := files_data.length,
        files_processed := 0 } fs files_data custom_mode h6 _ _
      ((Pipeline.step_hash_before fs files_data).hashes) hsucc hafter
    exact ⟨ha.trans rfl, hb⟩

/-- C8 witness: a concrete two-file batch where one chmod is denied — a 50%
failure rate.  By the threshold theorem the step is nevertheless marked
successful. -/
theorem C8_change_permission_threshold_witness :
    ([⟨"/a", some 420, "high"⟩, ⟨"/b", some 384, "high"⟩] : List Pipeline.FileData) ≠ []
    ∧ (Pipeline.step_change_permission
        { files := fun p =>
            if p = "/a" then ⟨true, 511, some "ha", true, false, false, false⟩
            else if p = "/b" then ⟨true, 511, some "hb", true, false, false, false⟩
            else ⟨false, 0, none, false, false, false, false⟩,
          chmodOk := fun p => p = "/a" }
        [⟨"/a", some 420, "high"⟩, ⟨"/b", some 384, "high"⟩] none).1.success = true := by
  refine ⟨by decide, ?_⟩
  have h := (C8_change_permission_threshold
    { files := fun p =>
        if p = "/a" then ⟨true, 511, some "ha", true, false, false, false⟩
        else if p = "/b" then ⟨true, 511, some "hb", true, false, false, false⟩
        else ⟨false, 0, none, false, false, false, false⟩,
      chmodOk := fun p => p = "/a" }
    [⟨"/a", some 420, "high"⟩, ⟨"/b", some 384, "high"⟩] none (by decide)).1
  cases hcc : (Pipeline.step_change_permission
      { files := fun p =>
          if p = "/a" then ⟨true, 511, some "ha", true, false, false, false⟩
          else if p = "/b" then ⟨true, 511, some "hb", true, false, false, false⟩
          else ⟨false, 0, none, false, false, false, false⟩,
        chmodOk := fun p => p = "/a" }
      [⟨"/a", some 420, "high"⟩, ⟨"/b", some 384, "high"⟩] none).1.success
  · exfalso
    have h2 := h.mp hcc
    revert h2
    decide
  · rfl
